import Mathlib

set_option maxHeartbeats 1000000

namespace ActionRunnerMonitor

/-!
Shallow embedding of the Runner Status Reconciliation & Outage Lifecycle Engine
of `src/probe.ts`, together with the StatelyDB schema (`schema.ts` /
`stately_pb.d.ts`).  Timestamps (`Date.now()`) are modelled by a single `now`
parameter per reconciliation pass, the Slack webhook configuration by an
`Option String` (JavaScript treats a missing or empty webhook as falsy), and
the network outcome of each call to the notification sink by an oracle
`net : Nat → Bool` indexed by the number of sink calls made so far.  The
StatelyDB store is modelled by lists of typed items; `put` overwrites the item
with the same key path if present and inserts it otherwise, mirroring the
hierarchical keys `/repo-:repoId`, `/repo-:repoId/runner-:name` and
`/repo-:repoId/history-:runnerId/outage-:outageId`.
-/

/-- Canonical runner statuses, from the generated schema enum `RunnerStatus`
(`stately_pb.d.ts` lines 130-150, `schema.ts` enumType). -/
inductive RunnerStatus where
  | UNSPECIFIED
  | ONLINE
  | OFFLINE
  | BUSY
  | UNKNOWN
  | IDLE
  deriving DecidableEq, Repr

open RunnerStatus

/-- Statuses considered unhealthy (`probe.ts` lines 27-30). -/
def UNHEALTHY_STATUSES : List RunnerStatus := [OFFLINE, UNKNOWN]

/-- A raw runner descriptor returned by the GitHub API
(`probe.ts` interface GitHubRunner, lines 32-40); labels are modelled by
their name strings. -/
structure GitHubRunner where
  id : Nat
  name : String
  status : String
  busy : Bool
  os : String
  labels : List String
  enabled : Bool
  deriving DecidableEq, Repr

/-- A stored runner record (`schema.ts` itemType Runner); the metadata-derived
fields createdAt/updatedAt are maintained by the persistence layer and omitted. -/
structure Runner where
  runnerId : Nat
  repoId : String
  name : String
  status : RunnerStatus
  enabled : Bool
  os : String
  labels : List String
  lastSeenAt : Nat
  firstSeenAt : Nat
  deriving DecidableEq, Repr

/-- A stored outage record (`schema.ts` itemType OutageEvent). -/
structure OutageEvent where
  outageId : Nat
  repoId : String
  runnerId : Nat
  runnerName : String
  status : RunnerStatus
  startedAt : Nat
  resolvedAt : Option Nat
  description : String
  notificationSent : Bool
  deriving DecidableEq, Repr

/-- A stored repository record (`schema.ts` itemType Repository). -/
structure Repository where
  repoId : String
  owner : String
  name : String
  isActive : Bool
  lastSyncedAt : Nat
  deriving DecidableEq, Repr

/-- A structured message delivered to the notification sink
(`sendSlackNotification` / `sendSlackRecoveryNotification`, `probe.ts`
lines 435-546): repository id, runner name, status and outage id. -/
inductive Notification where
  | alert (repoId : String) (runnerName : String) (status : RunnerStatus) (outageId : Nat)
  | recovery (repoId : String) (runnerName : String) (status : RunnerStatus) (outageId : Nat)
  deriving DecidableEq, Repr

/-- The persisted store plus the observable interaction with the notification
sink.  `log` records each call made to the sink endpoint together with its
outcome; `aborted` records that an uncaught exception escaped to the
per-repository catch (`probe.ts` line 236), after which the rest of the
repository's pass does not execute. -/
structure St where
  repos : List Repository
  runners : List Runner
  outages : List OutageEvent
  log : List (Notification × Bool)
  aborted : Bool
  deriving DecidableEq, Repr

/-- StatelyDB `put` for Runner items, key `/repo-:repoId/runner-:name`:
overwrite the item at the same key if present, insert otherwise. -/
def putRunner (rs : List Runner) (r : Runner) : List Runner :=
  if ∃ x ∈ rs, x.repoId = r.repoId ∧ x.name = r.name then
    rs.map (fun x => if x.repoId = r.repoId ∧ x.name = r.name then r else x)
  else rs ++ [r]

/-- StatelyDB `put` for OutageEvent items, key
`/repo-:repoId/history-:runnerId/outage-:outageId`. -/
def putOutage (os : List OutageEvent) (e : OutageEvent) : List OutageEvent :=
  if ∃ x ∈ os, x.repoId = e.repoId ∧ x.runnerId = e.runnerId ∧ x.outageId = e.outageId then
    os.map (fun x =>
      if x.repoId = e.repoId ∧ x.runnerId = e.runnerId ∧ x.outageId = e.outageId then e else x)
  else os ++ [e]

/-- StatelyDB `put` for Repository items, key `/repo-:repoId`. -/
def putRepo (rs : List Repository) (r : Repository) : List Repository :=
  if ∃ x ∈ rs, x.repoId = r.repoId then
    rs.map (fun x => if x.repoId = r.repoId then r else x)
  else rs ++ [r]

/-- The outage history of one runner: all events under the key path
`/repo-:repoId/history-:runnerId/`. -/
def outageHist (os : List OutageEvent) (repoId : String) (runnerId : Nat) : List OutageEvent :=
  os.filter (fun e => e.repoId = repoId ∧ e.runnerId = runnerId)

/-- Largest outage id in one runner's history (0 when the history is empty);
the schema assigns `outageId` from an increasing sequence scoped to the
history key path, so a fresh id is one more than this. -/
def maxOutageId (os : List OutageEvent) (repoId : String) (runnerId : Nat) : Nat :=
  (outageHist os repoId runnerId).foldl (fun m e => max m e.outageId) 0

/-- `mapGitHubStatus` (`probe.ts` lines 352-364). -/
def mapGitHubStatus (g : GitHubRunner) : RunnerStatus :=
  if g.status ≠ "online" then OFFLINE
  else if g.busy then BUSY
  else IDLE

/-- `statusToString` (`probe.ts` lines 551-566); the default case is reachable
only for the unset enum value 0. -/
def statusToString : RunnerStatus → String
  | ONLINE => "Online"
  | OFFLINE => "Offline"
  | BUSY => "Busy"
  | UNKNOWN => "Unknown"
  | IDLE => "Idle"
  | UNSPECIFIED => "Unknown status (0)"

/-- The OutageEvent created by `handleUnhealthyRunner` (`probe.ts` lines
380-392) before any notification is attempted: `notificationSent = false`,
no `resolvedAt`, and a fresh sequence-assigned `outageId`. -/
def openedEvent (now : Nat) (os : List OutageEvent) (runner : Runner)
    (status : RunnerStatus) : OutageEvent :=
  { outageId := maxOutageId os runner.repoId runner.runnerId + 1
    repoId := runner.repoId
    runnerId := runner.runnerId
    runnerName := runner.name
    status := status
    startedAt := now
    resolvedAt := none
    description := "Runner " ++ runner.name ++ " entered " ++ statusToString status ++ " state"
    notificationSent := false }

/-- The outage-creation step of `handleUnhealthyRunner` (`probe.ts` lines
380-393): persist a new OutageEvent and return it. -/
def openOutage (now : Nat) (s : St) (runner : Runner) (status : RunnerStatus) :
    St × OutageEvent :=
  let e := openedEvent now s.outages runner status
  ({ s with outages := putOutage s.outages e }, e)

/-- `handleUnhealthyRunner` (`probe.ts` lines 369-405): create an OutageEvent,
then try to notify Slack; on success mark `notificationSent = true` and
persist the update; on failure only log (the catch on lines 402-404).  With no
webhook configured the `axios.post` call rejects without reaching the sink, so
nothing is appended to the sink log and `notificationSent` stays false. -/
def handleUnhealthyRunner (webhook : Option String) (net : Nat → Bool) (now : Nat)
    (s : St) (runner : Runner) (status : RunnerStatus) : St :=
  if s.aborted then s else
  let p := openOutage now s runner status
  match webhook with
  | none => p.1
  | some _ =>
      let ok := net p.1.log.length
      let s2 := { p.1 with
        log := p.1.log ++ [(Notification.alert runner.repoId runner.name status p.2.outageId, ok)] }
      if ok then { s2 with outages := putOutage s2.outages { p.2 with notificationSent := true } }
      else s2

/-- The range scan of `resolveOutage` (`probe.ts` lines 417-420): limit 1 in
descending key order over one runner's history, i.e. the event with the
greatest `outageId` (ids are assigned by an increasing sequence under that
key path); `latestStep` selects the event with the larger id. -/
def latestStep (acc : Option OutageEvent) (e : OutageEvent) : Option OutageEvent :=
  match acc with
  | none => some e
  | some m => if m.outageId < e.outageId then some e else some m

def latestOutage (os : List OutageEvent) (repoId : String) (runnerId : Nat) :
    Option OutageEvent :=
  (outageHist os repoId runnerId).foldl latestStep none

/-- `resolveOutage` (`probe.ts` lines 410-430): look at the single most recent
outage record; if it is unresolved, set `resolvedAt = now`, persist, and
return its id; otherwise return the sentinel 0. -/
def resolveOutage (now : Nat) (s : St) (repoId : String) (runnerId : Nat) : St × Nat :=
  match latestOutage s.outages repoId runnerId with
  | some e =>
      if e.resolvedAt = none then
        ({ s with outages := putOutage s.outages { e with resolvedAt := some now } }, e.outageId)
      else (s, 0)
  | none => (s, 0)

/-- The runner record written on the matched path of the reconciler
(`probe.ts` lines 127-139): mutable fields overwritten, `lastSeenAt = now`,
identity and `firstSeenAt` kept. -/
def updatedRunner (now : Nat) (er : Runner) (g : GitHubRunner) : Runner :=
  { er with
    name := g.name
    status := mapGitHubStatus g
    enabled := g.enabled
    os := g.os
    labels := g.labels
    lastSeenAt := now }

/-- The runner record created on the no-match path (`probe.ts` lines 170-184):
`firstSeenAt = lastSeenAt = now`. -/
def newRunner (now : Nat) (repoId : String) (g : GitHubRunner) : Runner :=
  { runnerId := g.id
    repoId := repoId
    name := g.name
    status := mapGitHubStatus g
    enabled := g.enabled
    os := g.os
    labels := g.labels
    lastSeenAt := now
    firstSeenAt := now }

/-- The recovery arm of the matched path (`probe.ts` lines 156-169): resolve
the most recent outage, then — when a webhook is configured — dispatch a
recovery message built from the (already updated) runner record and the
returned outage id.  `sendSlackRecoveryNotification` is not wrapped in a
try/catch, so a dispatch failure escapes to the per-repository catch:
modelled by `aborted`. -/
def recoveryStep (webhook : Option String) (net : Nat → Bool) (now : Nat)
    (repoId : String) (s : St) (g : GitHubRunner) (er : Runner) : St :=
  let pr := resolveOutage now s repoId g.id
  match webhook with
  | some _ =>
      let ok := net pr.1.log.length
      { pr.1 with
        log := pr.1.log ++
          [(Notification.recovery er.repoId g.name (mapGitHubStatus g) pr.2, ok)]
        aborted := !ok }
  | none => pr.1

/-- The matched path of the remote-diff loop (`probe.ts` lines 127-169):
overwrite mutable fields and `lastSeenAt`; the unhealthy check (line 142)
fires whenever the new status is unhealthy and differs from the prior one;
the recovery check (lines 152-155) fires when the new status is healthy and
the prior one was unhealthy. -/
def matchedStep (webhook : Option String) (net : Nat → Bool) (now : Nat)
    (repoId : String) (s : St) (g : GitHubRunner) (er : Runner) : St :=
  let status := mapGitHubStatus g
  let updated := updatedRunner now er g
  let s1 := { s with runners := putRunner s.runners updated }
  let s2 :=
    if status ∈ UNHEALTHY_STATUSES ∧ status ≠ er.status then
      handleUnhealthyRunner webhook net now s1 updated status
    else s1
  if status ∉ UNHEALTHY_STATUSES ∧ er.status ∈ UNHEALTHY_STATUSES then
    recoveryStep webhook net now repoId s2 g er
  else s2

/-- The no-match path of the remote-diff loop (`probe.ts` lines 170-199):
persist the new record; `handleUnhealthyRunner` runs only when the initial
status is unhealthy AND a webhook is configured (line 191). -/
def unmatchedStep (webhook : Option String) (net : Nat → Bool) (now : Nat)
    (repoId : String) (s : St) (g : GitHubRunner) : St :=
  let nr := newRunner now repoId g
  let s1 := { s with runners := putRunner s.runners nr }
  if mapGitHubStatus g ∈ UNHEALTHY_STATUSES ∧ webhook.isSome then
    handleUnhealthyRunner webhook net now s1 nr (mapGitHubStatus g)
  else s1

/-- One iteration of the remote-diff loop (`probe.ts` lines 116-199).
`existing` is the snapshot of stored runners fetched at the start of the
pass; the lookup is by the numeric GitHub runner id (lines 123-125). -/
def processRemoteRunner (webhook : Option String) (net : Nat → Bool) (now : Nat)
    (repoId : String) (existing : List Runner) (s : St) (g : GitHubRunner) : St :=
  if s.aborted then s else
  match existing.find? (fun r => r.runnerId == g.id) with
  | some er => matchedStep webhook net now repoId s g er
  | none => unmatchedStep webhook net now repoId s g

/-- One iteration of the missing-runner sweep (`probe.ts` lines 203-235):
for a snapshot runner not reported by GitHub, set status to UNKNOWN (without
touching `lastSeenAt`, line 214) unless it already is UNKNOWN; open an outage
only when the prior status was healthy and a webhook is configured
(lines 222-225). -/
def sweepRunner (webhook : Option String) (net : Nat → Bool) (now : Nat)
    (remoteIds : List Nat) (s : St) (er : Runner) : St :=
  if s.aborted then s else
  if er.runnerId ∈ remoteIds then s
  else if er.status ≠ UNKNOWN then
    let oldStatus := er.status
    let updated := { er with status := UNKNOWN }
    let s1 := { s with runners := putRunner s.runners updated }
    if oldStatus ∉ UNHEALTHY_STATUSES ∧ webhook.isSome then
      handleUnhealthyRunner webhook net now s1 updated UNKNOWN
    else s1
  else s

/-- JavaScript `String.prototype.split` at separator "/" on the character
list of the string (`probe.ts` line 76). -/
def splitOnSlash : List Char → List (List Char)
  | [] => [[]]
  | c :: rest =>
      let ps := splitOnSlash rest
      if c = '/' then [] :: ps
      else (c :: ps.headD []) :: ps.tail

/-- `const [owner, name] = repo.split("/")` (`probe.ts` line 76): the owner
component of a configured repository string. -/
def ownerOf (repo : String) : String :=
  String.mk ((splitOnSlash repo.data).getD 0 [])

/-- `const repoId = name` (`probe.ts` lines 76-77): the repoId is the second
component of the split, i.e. the repository name with the owner discarded. -/
def repoIdOf (repo : String) : String :=
  String.mk ((splitOnSlash repo.data).getD 1 [])

/-- Key path of a Repository item (`schema.ts`, `probe.ts` line 81). -/
def repositoryKeyPath (repoId : String) : String :=
  "/repo-" ++ repoId

/-- Key path of a Runner item (`schema.ts`, `probe.ts` line 340). -/
def runnerKeyPath (repoId name : String) : String :=
  "/repo-" ++ repoId ++ "/runner-" ++ name

/-- Key path of an OutageEvent item (`schema.ts`, `probe.ts` line 418). -/
def outageKeyPath (repoId : String) (runnerId outageId : Nat) : String :=
  "/repo-" ++ repoId ++ "/history-" ++ toString runnerId ++ "/outage-" ++ toString outageId

/-- `fetchExistingRunners` (`probe.ts` lines 336-347): range scan of all
Runner items under the repository's partition. -/
def fetchExistingRunners (s : St) (repoId : String) : List Runner :=
  s.runners.filter (fun r => r.repoId = repoId)

/-- Repository record bookkeeping (`probe.ts` lines 79-100): create the
record with `isActive = true` if absent, else refresh `lastSyncedAt`. -/
def ensureRepository (now : Nat) (s : St) (owner repoId : String) : St :=
  if s.aborted then s else
  match s.repos.find? (fun r => r.repoId == repoId) with
  | some repo => { s with repos := putRepo s.repos { repo with lastSyncedAt := now } }
  | none =>
      let fresh : Repository :=
        { repoId := repoId, owner := owner, name := repoId, isActive := true,
          lastSyncedAt := now }
      { s with repos := putRepo s.repos fresh }

/-- The ids of the remote runner set (`processedRunnerIds`, `probe.ts`
lines 113-117; the set is fully populated before the sweep reads it). -/
def remoteIdsOf (remote : List GitHubRunner) : List Nat :=
  remote.map (fun g => g.id)

/-- One per-repository reconciliation pass (`probe.ts` lines 71-239), given
the already-fetched remote runner list: ensure the Repository record, diff
the remote set against the stored snapshot, then sweep stored runners not
reported remotely. -/
def processRepository (webhook : Option String) (net : Nat → Bool) (now : Nat)
    (repo : String) (remote : List GitHubRunner) (s : St) : St :=
  let repoId := repoIdOf repo
  let s0 := ensureRepository now s (ownerOf repo) repoId
  let existing := fetchExistingRunners s0 repoId
  let s1 := remote.foldl (processRemoteRunner webhook net now repoId existing) s0
  existing.foldl (sweepRunner webhook net now (remoteIdsOf remote)) s1

/-! ### Well-formedness predicates and reconciliation shape functions

These support the idempotence analysis: the predicates say that store keys
and runner identities are consistent (no stale duplicate-id records, which
arise from renames and break idempotence), and the shape functions describe
the effect of one reconciliation pass on the runner store. -/

/-- Store keys `(repoId, name)` are pairwise distinct, as they are in any
store reachable only through keyed `put` operations. -/
def KeysNodup (rs : List Runner) : Prop :=
  List.Pairwise (fun a b => ¬(a.repoId = b.repoId ∧ a.name = b.name)) rs

/-- The stored runner ids of one repository are pairwise distinct. -/
def RepoIdsNodup (rs : List Runner) (repoId : String) : Prop :=
  ((rs.filter (fun r => r.repoId = repoId)).map (fun r => r.runnerId)).Nodup

/-- Remote descriptors carry pairwise-distinct ids and names. -/
def RemoteWF (remote : List GitHubRunner) : Prop :=
  (remote.map (fun g => g.id)).Nodup ∧ (remote.map (fun g => g.name)).Nodup

/-- A stored record of the repository bears a remote descriptor's name
exactly when it bears its id (no renames, no cross-collisions). -/
def Consistent (rs : List Runner) (repoId : String) (remote : List GitHubRunner) : Prop :=
  ∀ r ∈ rs, r.repoId = repoId → ∀ g ∈ remote, (r.name = g.name ↔ r.runnerId = g.id)

/-- Effect of the remote-diff phase on one stored record after the prefix
`done` of the remote list has been processed. -/
def applyDiff (now : Nat) (repoId : String) (done : List GitHubRunner) (r : Runner) :
    Runner :=
  if r.repoId = repoId then
    match done.find? (fun g => g.id == r.runnerId) with
    | some g => updatedRunner now r g
    | none => r
  else r

/-- The records created by the remote-diff phase for the prefix `done`:
one new runner per remote descriptor with no stored match. -/
def createdRunners (now : Nat) (repoId : String) (existing : List Runner)
    (done : List GitHubRunner) : List Runner :=
  (done.filter (fun g => (existing.find? (fun r => r.runnerId == g.id)).isNone)).map
    (newRunner now repoId)

/-- Effect of the full remote-diff phase plus the sweep of the snapshot
prefix `E1` on one stored record. -/
def phase2Apply (now : Nat) (repoId : String) (remote : List GitHubRunner)
    (E1 : List Runner) (r : Runner) : Runner :=
  if r.repoId = repoId then
    match remote.find? (fun g => g.id == r.runnerId) with
    | some g => updatedRunner now r g
    | none =>
        if (∃ e ∈ E1, e.name = r.name) ∧ r.status ≠ UNKNOWN then { r with status := UNKNOWN }
        else r
  else r

/-- Effect of one complete reconciliation pass on one stored record:
observed records are overwritten from the remote descriptor, unobserved ones
are demoted to UNKNOWN. -/
def reconApply (now : Nat) (repoId : String) (remote : List GitHubRunner) (r : Runner) :
    Runner :=
  if r.repoId = repoId then
    match remote.find? (fun g => g.id == r.runnerId) with
    | some g => updatedRunner now r g
    | none => if r.status ≠ UNKNOWN then { r with status := UNKNOWN } else r
  else r

/-- The open outage records of one runner: its history filtered to events
with `resolvedAt` absent (the invariant of spec section 3 bounds the length
of this list by 1). -/
def openOutagesFor (os : List OutageEvent) (repoId : String) (rid : Nat) :
    List OutageEvent :=
  (outageHist os repoId rid).filter (fun e => e.resolvedAt = none)

/-! ### Concrete scenario constants used by witnesses and counterexamples -/

def wOut1 : OutageEvent :=
  { outageId := 1, repoId := "m", runnerId := 1, runnerName := "a", status := OFFLINE,
    startedAt := 0, resolvedAt := some 3, description := "d", notificationSent := true }

def wOut2 : OutageEvent :=
  { outageId := 2, repoId := "m", runnerId := 1, runnerName := "a", status := UNKNOWN,
    startedAt := 4, resolvedAt := none, description := "d", notificationSent := false }

def wSt : St :=
  { repos := [], runners := [], outages := [wOut1, wOut2], log := [], aborted := false }

/-- A stored runner that is healthy (IDLE). -/
def wIdle : Runner :=
  { runnerId := 1, repoId := "m", name := "a", status := IDLE, enabled := true,
    os := "linux", labels := [], lastSeenAt := 0, firstSeenAt := 0 }

/-- A stored runner that was swept to UNKNOWN earlier and still has an open
outage (`wOpen`). -/
def wUnknown : Runner :=
  { runnerId := 1, repoId := "m", name := "a", status := UNKNOWN, enabled := true,
    os := "linux", labels := [], lastSeenAt := 0, firstSeenAt := 0 }

/-- A stored runner currently OFFLINE. -/
def wOffline : Runner :=
  { runnerId := 1, repoId := "m", name := "a", status := OFFLINE, enabled := true,
    os := "linux", labels := [], lastSeenAt := 0, firstSeenAt := 0 }

/-- A remote descriptor reporting runner 1 as "offline" under the name "a". -/
def wOffG : GitHubRunner :=
  { id := 1, name := "a", status := "offline", busy := false, os := "linux",
    labels := [], enabled := true }

/-- A remote descriptor reporting runner 1 as busy online under the name "a". -/
def wOnG : GitHubRunner :=
  { id := 1, name := "a", status := "online", busy := true, os := "linux",
    labels := [], enabled := true }

/-- A remote descriptor reporting runner 1 as "offline" under the NEW name
"b" (a rename in GitHub). -/
def wRenameG : GitHubRunner :=
  { id := 1, name := "b", status := "offline", busy := false, os := "linux",
    labels := [], enabled := true }

/-- An open outage for runner 1 of repository "m". -/
def wOpen : OutageEvent :=
  { outageId := 1, repoId := "m", runnerId := 1, runnerName := "a", status := UNKNOWN,
    startedAt := 0, resolvedAt := none, description := "d", notificationSent := false }

/-- State with one healthy stored runner and no outage history. -/
def wStIdle : St :=
  { repos := [], runners := [wIdle], outages := [], log := [], aborted := false }

/-- State with one UNKNOWN stored runner and one open outage: it satisfies
the at-most-one-open-outage invariant. -/
def wStUnknownOpen : St :=
  { repos := [], runners := [wUnknown], outages := [wOpen], log := [], aborted := false }

/-- State with one OFFLINE stored runner whose only outage is already
resolved. -/
def wStOffResolved : St :=
  { repos := [], runners := [wOffline], outages := [wOut1], log := [], aborted := false }

/-- The empty store. -/
def wStEmpty : St :=
  { repos := [], runners := [], outages := [], log := [], aborted := false }

/-! ### Basic lemmas about the embedding -/

lemma splitOnSlash_no_slash (l : List Char) (h : '/' ∉ l) : splitOnSlash l = [l] := by
  induction l with
  | nil => rfl
  | cons c rest ih =>
      simp only [List.mem_cons, not_or] at h
      have hc : ¬ c = '/' := fun e => h.1 e.symm
      simp only [splitOnSlash, if_neg hc, ih h.2]
      rfl

lemma splitOnSlash_slash_append (o rest : List Char) (h : '/' ∉ o) :
    splitOnSlash (o ++ '/' :: rest) = o :: splitOnSlash rest := by
  induction o with
  | nil => simp [splitOnSlash]
  | cons c o' ih =>
      simp only [List.mem_cons, not_or] at h
      have hc : ¬ c = '/' := fun e => h.1 e.symm
      simp only [List.cons_append, splitOnSlash, if_neg hc, List.append_eq, ih h.2]
      rfl

lemma string_data_append (a b : String) : (a ++ b).data = a.data ++ b.data := rfl

lemma repoIdOf_split (o n : String) (ho : '/' ∉ o.data) (hn : '/' ∉ n.data) :
    repoIdOf (o ++ "/" ++ n) = n ∧ ownerOf (o ++ "/" ++ n) = o := by
  have hd : (o ++ "/" ++ n).data = o.data ++ '/' :: n.data := by
    simp [string_data_append]
  constructor
  · simp only [repoIdOf, hd, splitOnSlash_slash_append _ _ ho, splitOnSlash_no_slash _ hn]
    rfl
  · simp only [ownerOf, hd, splitOnSlash_slash_append _ _ ho]
    rfl

/-- C9: the engine derives `repoId` from a configured "owner/name" string as
the name component only, discarding the owner; two configured repositories
with different owners but the same name therefore share the `/repo-:repoId`
key paths of their Repository, Runner and OutageEvent records, i.e. they are
reconciled into one shared record namespace. -/
theorem C9_repoId_discards_owner (o₁ o₂ n : String)
    (h₁ : '/' ∉ o₁.data) (h₂ : '/' ∉ o₂.data) (hn : '/' ∉ n.data) :
    repoIdOf (o₁ ++ "/" ++ n) = n ∧ ownerOf (o₁ ++ "/" ++ n) = o₁ ∧
    repoIdOf (o₂ ++ "/" ++ n) = n ∧ ownerOf (o₂ ++ "/" ++ n) = o₂ ∧
    repositoryKeyPath (repoIdOf (o₁ ++ "/" ++ n)) =
      repositoryKeyPath (repoIdOf (o₂ ++ "/" ++ n)) ∧
    (∀ rn : String,
      runnerKeyPath (repoIdOf (o₁ ++ "/" ++ n)) rn =
        runnerKeyPath (repoIdOf (o₂ ++ "/" ++ n)) rn) ∧
    (∀ rid oid : Nat,
      outageKeyPath (repoIdOf (o₁ ++ "/" ++ n)) rid oid =
        outageKeyPath (repoIdOf (o₂ ++ "/" ++ n)) rid oid) := by
  obtain ⟨ha₁, hb₁⟩ := repoIdOf_split o₁ n h₁ hn
  obtain ⟨ha₂, hb₂⟩ := repoIdOf_split o₂ n h₂ hn
  refine ⟨ha₁, hb₁, ha₂, hb₂, ?_, ?_, ?_⟩ <;> simp [ha₁, ha₂]

/-- C9 witness. -/
theorem C9_repoId_discards_owner_witness :
    repoIdOf ("alice" ++ "/" ++ "proj") = "proj" ∧
    repoIdOf ("bob" ++ "/" ++ "proj") = "proj" := by
  have h := C9_repoId_discards_owner "alice" "bob" "proj"
    (by decide) (by decide) (by decide)
  exact ⟨h.1, h.2.2.1⟩

/-- C6: the status classifier is total with no error path: a raw state other
than the literal "online" maps to OFFLINE; otherwise BUSY when busy, IDLE
when not; and the unhealthy status set is exactly OFFLINE and UNKNOWN. -/
theorem C6_classifier (g : GitHubRunner) :
    (g.status ≠ "online" → mapGitHubStatus g = OFFLINE) ∧
    (g.status = "online" → g.busy = true → mapGitHubStatus g = BUSY) ∧
    (g.status = "online" → g.busy = false → mapGitHubStatus g = IDLE) ∧
    (∀ st : RunnerStatus, st ∈ UNHEALTHY_STATUSES ↔ (st = OFFLINE ∨ st = UNKNOWN)) := by
  refine ⟨fun h => ?_, fun h hb => ?_, fun h hb => ?_, fun st => ?_⟩
  · simp [mapGitHubStatus, h]
  · simp [mapGitHubStatus, h, hb]
  · simp [mapGitHubStatus, h, hb]
  · simp [UNHEALTHY_STATUSES]

/-- C6 witness. -/
theorem C6_classifier_witness :
    mapGitHubStatus ⟨1, "a", "offline", false, "linux", [], true⟩ = OFFLINE ∧
    mapGitHubStatus ⟨1, "a", "online", true, "linux", [], true⟩ = BUSY ∧
    mapGitHubStatus ⟨1, "a", "online", false, "linux", [], true⟩ = IDLE ∧
    (OFFLINE ∈ UNHEALTHY_STATUSES ∧ UNKNOWN ∈ UNHEALTHY_STATUSES ∧
      IDLE ∉ UNHEALTHY_STATUSES) :=
  ⟨(C6_classifier _).1 (by decide),
   (C6_classifier _).2.1 rfl rfl,
   (C6_classifier _).2.2.1 rfl rfl,
   ((C6_classifier ⟨1, "a", "online", false, "linux", [], true⟩).2.2.2 OFFLINE).mpr
      (Or.inl rfl),
   ((C6_classifier ⟨1, "a", "online", false, "linux", [], true⟩).2.2.2 UNKNOWN).mpr
      (Or.inr rfl),
   fun h => by
    have := ((C6_classifier ⟨1, "a", "online", false, "linux", [], true⟩).2.2.2 IDLE).mp h
    simp at this⟩

/-! ### Lemmas about the outage history scan -/

lemma latestStep_cases (acc : Option OutageEvent) (x e : OutageEvent)
    (h : latestStep acc x = some e) : e = x ∨ acc = some e := by
  cases acc with
  | none =>
      simp only [latestStep, Option.some.injEq] at h
      exact Or.inl h.symm
  | some a =>
      simp only [latestStep] at h
      by_cases hlt : a.outageId < x.outageId
      · rw [if_pos hlt] at h
        simp only [Option.some.injEq] at h
        exact Or.inl h.symm
      · rw [if_neg hlt] at h
        exact Or.inr h

lemma latestStep_exists (acc : Option OutageEvent) (x : OutageEvent) :
    ∃ m, latestStep acc x = some m ∧ x.outageId ≤ m.outageId ∧
      (∀ a, acc = some a → a.outageId ≤ m.outageId) := by
  cases acc with
  | none => exact ⟨x, rfl, le_refl _, by simp⟩
  | some a =>
      by_cases h : a.outageId < x.outageId
      · exact ⟨x, by simp [latestStep, h], le_refl _,
          by simp only [Option.some.injEq]; rintro a' rfl; exact Nat.le_of_lt h⟩
      · exact ⟨a, by simp [latestStep, h], Nat.le_of_not_lt h,
          by simp only [Option.some.injEq]; rintro a' rfl; exact le_refl _⟩

lemma foldl_latestStep_spec :
    ∀ (l : List OutageEvent) (acc : Option OutageEvent) (e : OutageEvent),
      l.foldl latestStep acc = some e →
      (e ∈ l ∨ acc = some e) ∧ (∀ x ∈ l, x.outageId ≤ e.outageId) ∧
      (∀ a, acc = some a → a.outageId ≤ e.outageId) := by
  intro l
  induction l with
  | nil =>
      intro acc e h
      refine ⟨Or.inr h, by simp, ?_⟩
      rintro a rfl
      simp_all
  | cons x l ih =>
      intro acc e h
      simp only [List.foldl_cons] at h
      obtain ⟨lmem, hle, hacc⟩ := ih (latestStep acc x) e h
      obtain ⟨m, hm, hxm, haccm⟩ := latestStep_exists acc x
      have hme : m.outageId ≤ e.outageId := hacc m hm
      refine ⟨?_, ?_, ?_⟩
      · rcases lmem with h' | h'
        · exact Or.inl (List.mem_cons_of_mem _ h')
        · rcases latestStep_cases acc x e h' with h'' | h''
          · exact Or.inl (by rw [h'']; exact List.mem_cons_self _ _)
          · exact Or.inr h''
      · intro y hy
        rcases List.mem_cons.mp hy with rfl | hy'
        · exact le_trans hxm hme
        · exact hle y hy'
      · intro a ha
        exact le_trans (haccm a ha) hme

lemma latestOutage_spec (os : List OutageEvent) (repoId : String) (rid : Nat)
    (e : OutageEvent) (h : latestOutage os repoId rid = some e) :
    e ∈ outageHist os repoId rid ∧
      ∀ x ∈ outageHist os repoId rid, x.outageId ≤ e.outageId := by
  obtain ⟨hmem, hle, _⟩ := foldl_latestStep_spec _ none e h
  exact ⟨hmem.resolve_right (by simp), hle⟩

lemma outageHist_subset (os : List OutageEvent) (repoId : String) (rid : Nat)
    (e : OutageEvent) (h : e ∈ outageHist os repoId rid) :
    e ∈ os ∧ e.repoId = repoId ∧ e.runnerId = rid := by
  simp only [outageHist, List.mem_filter, decide_eq_true_eq] at h
  exact ⟨h.1, h.2⟩

/-- C4: `resolveOutage` inspects only the single most recent outage record
(the one with the greatest id under the runner's history key path).  If it is
unresolved it is marked `resolvedAt = now`, persisted, and its id returned;
if it is already resolved, or no record exists, nothing is written and the
sentinel 0 is returned; events other than the most recent one are never
modified. -/
theorem C4_resolve_most_recent_only (now : Nat) (s : St) (repoId : String) (rid : Nat) :
    (outageHist s.outages repoId rid = [] → resolveOutage now s repoId rid = (s, 0)) ∧
    (∀ e, latestOutage s.outages repoId rid = some e →
      (∀ x ∈ outageHist s.outages repoId rid, x.outageId ≤ e.outageId) ∧
      (e.resolvedAt ≠ none → resolveOutage now s repoId rid = (s, 0)) ∧
      (e.resolvedAt = none →
        (resolveOutage now s repoId rid).2 = e.outageId ∧
        (resolveOutage now s repoId rid).1.outages =
          s.outages.map (fun x =>
            if x.repoId = e.repoId ∧ x.runnerId = e.runnerId ∧ x.outageId = e.outageId
            then { e with resolvedAt := some now } else x) ∧
        (resolveOutage now s repoId rid).1.runners = s.runners ∧
        (∀ x ∈ s.outages,
          ¬(x.repoId = e.repoId ∧ x.runnerId = e.runnerId ∧ x.outageId = e.outageId) →
          x ∈ (resolveOutage now s repoId rid).1.outages))) := by
  constructor
  · intro h
    simp [resolveOutage, latestOutage, h]
  · intro e he
    obtain ⟨hmem, hle⟩ := latestOutage_spec _ _ _ _ he
    obtain ⟨hos, hrepo, hrid⟩ := outageHist_subset _ _ _ _ hmem
    refine ⟨hle, fun hres => ?_, fun hres => ?_⟩
    · simp [resolveOutage, he, hres]
    · have hput : putOutage s.outages { e with resolvedAt := some now } =
          s.outages.map (fun x =>
            if x.repoId = e.repoId ∧ x.runnerId = e.runnerId ∧ x.outageId = e.outageId
            then { e with resolvedAt := some now } else x) := by
        simp only [putOutage]
        rw [if_pos ⟨e, hos, rfl, rfl, rfl⟩]
      refine ⟨by simp [resolveOutage, he, hres], ?_, by simp [resolveOutage, he, hres], ?_⟩
      · simp only [resolveOutage, he, if_pos hres]
        exact hput
      · intro x hx hkey
        simp only [resolveOutage, he, if_pos hres, hput]
        exact List.mem_map.mpr ⟨x, hx, by rw [if_neg hkey]⟩

/-- C4 witness. -/
theorem C4_resolve_most_recent_only_witness :
    latestOutage wSt.outages "m" 1 = some wOut2 ∧ wOut2.resolvedAt = none ∧
    (resolveOutage 9 wSt "m" 1).2 = wOut2.outageId ∧
    wOut1 ∈ (resolveOutage 9 wSt "m" 1).1.outages := by
  have h := (C4_resolve_most_recent_only 9 wSt "m" 1).2 wOut2 (by decide)
  have h2 := h.2.2 (by decide)
  exact ⟨by decide, by decide, h2.1,
    h2.2.2.2 wOut1 (by decide) (by decide)⟩

/-! ### Frame and behavior lemmas for the lifecycle operations -/

lemma resolveOutage_frame (now : Nat) (s : St) (repoId : String) (rid : Nat) :
    (resolveOutage now s repoId rid).1.runners = s.runners ∧
    (resolveOutage now s repoId rid).1.log = s.log ∧
    (resolveOutage now s repoId rid).1.aborted = s.aborted ∧
    (resolveOutage now s repoId rid).1.repos = s.repos := by
  rcases hl : latestOutage s.outages repoId rid with _ | e
  · simp [resolveOutage, hl]
  · by_cases h : e.resolvedAt = none <;> simp [resolveOutage, hl, h]

lemma foldl_max_le (l : List OutageEvent) :
    ∀ a : Nat, a ≤ l.foldl (fun m e => max m e.outageId) a ∧
      ∀ x ∈ l, x.outageId ≤ l.foldl (fun m e => max m e.outageId) a := by
  induction l with
  | nil => intro a; exact ⟨le_refl _, by simp⟩
  | cons x l ih =>
      intro a
      obtain ⟨h1, h2⟩ := ih (max a x.outageId)
      refine ⟨le_trans (le_max_left _ _) h1, ?_⟩
      intro y hy
      rcases List.mem_cons.mp hy with rfl | hy'
      · exact le_trans (le_max_right _ _) h1
      · exact h2 y hy'

lemma mem_hist_le_maxOutageId (os : List OutageEvent) (repoId : String) (rid : Nat)
    (x : OutageEvent) (hx : x ∈ outageHist os repoId rid) :
    x.outageId ≤ maxOutageId os repoId rid :=
  (foldl_max_le (outageHist os repoId rid) 0).2 x hx

/-- The event created by `openOutage` has a key fresh for the whole store:
its id strictly exceeds every id in the runner's history. -/
lemma openedEvent_fresh (now : Nat) (os : List OutageEvent) (runner : Runner)
    (status : RunnerStatus) :
    ∀ x ∈ os, ¬(x.repoId = (openedEvent now os runner status).repoId ∧
      x.runnerId = (openedEvent now os runner status).runnerId ∧
      x.outageId = (openedEvent now os runner status).outageId) := by
  rintro x hx ⟨h1, h2, h3⟩
  simp only [openedEvent] at h1 h2 h3
  have hxh : x ∈ outageHist os runner.repoId runner.runnerId := by
    simp only [outageHist, List.mem_filter, decide_eq_true_eq]
    exact ⟨hx, h1, h2⟩
  have := mem_hist_le_maxOutageId os runner.repoId runner.runnerId x hxh
  omega

lemma putOutage_fresh (os : List OutageEvent) (e : OutageEvent)
    (h : ∀ x ∈ os, ¬(x.repoId = e.repoId ∧ x.runnerId = e.runnerId ∧
      x.outageId = e.outageId)) :
    putOutage os e = os ++ [e] := by
  simp only [putOutage]
  rw [if_neg]
  rintro ⟨x, hx, hk⟩
  exact h x hx hk

lemma putOutage_replace_last (os : List OutageEvent) (e e' : OutageEvent)
    (hk : e'.repoId = e.repoId ∧ e'.runnerId = e.runnerId ∧ e'.outageId = e.outageId)
    (h : ∀ x ∈ os, ¬(x.repoId = e.repoId ∧ x.runnerId = e.runnerId ∧
      x.outageId = e.outageId)) :
    putOutage (os ++ [e]) e' = os ++ [e'] := by
  simp only [putOutage]
  rw [if_pos ⟨e, by simp, hk.1.symm, hk.2.1.symm, hk.2.2.symm⟩, List.map_append]
  congr 1
  · conv_rhs => rw [← List.map_id os]
    refine List.map_congr_left ?_
    intro x hx
    rw [if_neg, id]
    rw [hk.1, hk.2.1, hk.2.2]
    exact h x hx
  · simp [hk.1.symm, hk.2.1.symm, hk.2.2.symm]

lemma handleUnhealthyRunner_none (net : Nat → Bool) (now : Nat) (s : St)
    (runner : Runner) (status : RunnerStatus) (ha : s.aborted = false) :
    handleUnhealthyRunner none net now s runner status =
      { s with outages := s.outages ++ [openedEvent now s.outages runner status] } := by
  simp only [handleUnhealthyRunner, ha, Bool.false_eq_true, if_false, openOutage]
  rw [putOutage_fresh _ _ (openedEvent_fresh now s.outages runner status)]

lemma handleUnhealthyRunner_some (u : String) (net : Nat → Bool) (now : Nat) (s : St)
    (runner : Runner) (status : RunnerStatus) (ha : s.aborted = false) :
    handleUnhealthyRunner (some u) net now s runner status =
      { s with
        outages := s.outages ++
          [if net s.log.length then
            { openedEvent now s.outages runner status with notificationSent := true }
          else openedEvent now s.outages runner status]
        log := s.log ++
          [(Notification.alert runner.repoId runner.name status
              (openedEvent now s.outages runner status).outageId, net s.log.length)] } := by
  have hfresh := openedEvent_fresh now s.outages runner status
  cases hok : net s.log.length with
  | false =>
      simp only [handleUnhealthyRunner, ha, Bool.false_eq_true, if_false, openOutage, hok,
        putOutage_fresh _ _ hfresh]
  | true =>
      simp only [handleUnhealthyRunner, ha, Bool.false_eq_true, if_false, openOutage, hok,
        putOutage_fresh _ _ hfresh, if_true]
      rw [putOutage_replace_last s.outages (openedEvent now s.outages runner status)
        { openedEvent now s.outages runner status with notificationSent := true }
        ⟨rfl, rfl, rfl⟩ hfresh]

lemma handleUnhealthyRunner_frame (w : Option String) (net : Nat → Bool) (now : Nat)
    (s : St) (runner : Runner) (status : RunnerStatus) :
    (handleUnhealthyRunner w net now s runner status).runners = s.runners ∧
    (handleUnhealthyRunner w net now s runner status).aborted = s.aborted ∧
    (handleUnhealthyRunner w net now s runner status).repos = s.repos := by
  by_cases ha : s.aborted = true
  · simp [handleUnhealthyRunner, ha]
  · have ha' : s.aborted = false := by simpa using ha
    cases w with
    | none => simp [handleUnhealthyRunner_none _ _ _ _ _ ha', ha']
    | some u =>
        rw [handleUnhealthyRunner_some _ _ _ _ _ _ ha']
        exact ⟨rfl, ha'.symm ▸ rfl, rfl⟩

lemma recoveryStep_frame (w : Option String) (net : Nat → Bool) (now : Nat)
    (repoId : String) (s : St) (g : GitHubRunner) (er : Runner) :
    (recoveryStep w net now repoId s g er).runners = s.runners ∧
    (recoveryStep w net now repoId s g er).repos = s.repos := by
  obtain ⟨h1, h2, h3, h4⟩ := resolveOutage_frame now s repoId g.id
  cases w with
  | none => exact ⟨h1, h4⟩
  | some u => exact ⟨h1, h4⟩

lemma matchedStep_runners (w : Option String) (net : Nat → Bool) (now : Nat)
    (repoId : String) (s : St) (g : GitHubRunner) (er : Runner) :
    (matchedStep w net now repoId s g er).runners =
      putRunner s.runners (updatedRunner now er g) := by
  simp only [matchedStep]
  set s1 : St := { s with runners := putRunner s.runners (updatedRunner now er g) } with hs1
  have hr1 : s1.runners = putRunner s.runners (updatedRunner now er g) := rfl
  split
  · rcases recoveryStep_frame w net now repoId
      (if mapGitHubStatus g ∈ UNHEALTHY_STATUSES ∧ mapGitHubStatus g ≠ er.status then
          handleUnhealthyRunner w net now s1 (updatedRunner now er g) (mapGitHubStatus g)
        else s1) g er with ⟨hr, _⟩
    rw [hr]
    split
    · rw [(handleUnhealthyRunner_frame _ _ _ _ _ _).1]
    · rfl
  · split
    · rw [(handleUnhealthyRunner_frame _ _ _ _ _ _).1]
    · rfl

lemma unmatchedStep_runners (w : Option String) (net : Nat → Bool) (now : Nat)
    (repoId : String) (s : St) (g : GitHubRunner) :
    (unmatchedStep w net now repoId s g).runners =
      putRunner s.runners (newRunner now repoId g) := by
  simp only [unmatchedStep]
  split
  · rw [(handleUnhealthyRunner_frame _ _ _ _ _ _).1]
  · rfl

lemma processRemoteRunner_matched (w : Option String) (net : Nat → Bool) (now : Nat)
    (repoId : String) (existing : List Runner) (s : St) (g : GitHubRunner) (er : Runner)
    (ha : s.aborted = false)
    (hf : existing.find? (fun r => r.runnerId == g.id) = some er) :
    processRemoteRunner w net now repoId existing s g =
      matchedStep w net now repoId s g er := by
  simp [processRemoteRunner, ha, hf]

lemma processRemoteRunner_unmatched (w : Option String) (net : Nat → Bool) (now : Nat)
    (repoId : String) (existing : List Runner) (s : St) (g : GitHubRunner)
    (ha : s.aborted = false)
    (hf : existing.find? (fun r => r.runnerId == g.id) = none) :
    processRemoteRunner w net now repoId existing s g =
      unmatchedStep w net now repoId s g := by
  simp [processRemoteRunner, ha, hf]

/-- A matched runner whose stored status already equals the newly classified
status triggers neither the unhealthy arm nor the recovery arm: the step only
rewrites the runner record. -/
lemma matchedStep_stable (w : Option String) (net : Nat → Bool) (now : Nat)
    (repoId : String) (s : St) (g : GitHubRunner) (er : Runner)
    (hst : er.status = mapGitHubStatus g) :
    matchedStep w net now repoId s g er =
      { s with runners := putRunner s.runners (updatedRunner now er g) } := by
  have h1 : ¬(mapGitHubStatus g ∈ UNHEALTHY_STATUSES ∧ mapGitHubStatus g ≠ er.status) := by
    rw [hst]; tauto
  have h2 : ¬(mapGitHubStatus g ∉ UNHEALTHY_STATUSES ∧ er.status ∈ UNHEALTHY_STATUSES) := by
    rw [hst]; tauto
  simp only [matchedStep, if_neg h1, if_neg h2]

/-! ### Claim theorems about the per-runner paths -/

/-- C3: for a stored runner observed in the current fetch, a transition from
a healthy prior status to an unhealthy new status produces exactly one new
OutageEvent — created with `notificationSent = false` before dispatch is
attempted and with `resolvedAt` absent (the final store differs from the
created event at most in `notificationSent`, which dispatch may set) — and a
healthy-to-healthy observation produces no OutageEvent. -/
theorem C3_transition_opens_exactly_one (w : Option String) (net : Nat → Bool)
    (now : Nat) (repoId : String) (existing : List Runner) (s : St) (g : GitHubRunner)
    (er : Runner) (ha : s.aborted = false)
    (hf : existing.find? (fun r => r.runnerId == g.id) = some er)
    (hh : er.status ∉ UNHEALTHY_STATUSES) :
    (mapGitHubStatus g ∈ UNHEALTHY_STATUSES →
      (openedEvent now s.outages (updatedRunner now er g) (mapGitHubStatus g)).notificationSent
          = false ∧
      (openedEvent now s.outages (updatedRunner now er g) (mapGitHubStatus g)).resolvedAt
          = none ∧
      ∃ b, (processRemoteRunner w net now repoId existing s g).outages =
        s.outages ++
          [{ openedEvent now s.outages (updatedRunner now er g) (mapGitHubStatus g) with
              notificationSent := b }]) ∧
    (mapGitHubStatus g ∉ UNHEALTHY_STATUSES →
      (processRemoteRunner w net now repoId existing s g).outages = s.outages) := by
  rw [processRemoteRunner_matched w net now repoId existing s g er ha hf]
  constructor
  · intro hu
    have hne : mapGitHubStatus g ≠ er.status := fun e => hh (e ▸ hu)
    have hc1 : mapGitHubStatus g ∈ UNHEALTHY_STATUSES ∧ mapGitHubStatus g ≠ er.status :=
      ⟨hu, hne⟩
    have h2 : ¬(mapGitHubStatus g ∉ UNHEALTHY_STATUSES ∧ er.status ∈ UNHEALTHY_STATUSES) :=
      fun h => h.1 hu
    have hstep : matchedStep w net now repoId s g er =
        handleUnhealthyRunner w net now
          { s with runners := putRunner s.runners (updatedRunner now er g) }
          (updatedRunner now er g) (mapGitHubStatus g) := by
      simp only [matchedStep, if_pos hc1, if_neg h2]
    rw [hstep]
    refine ⟨rfl, rfl, ?_⟩
    cases w with
    | none =>
        rw [handleUnhealthyRunner_none net now
          { s with runners := putRunner s.runners (updatedRunner now er g) }
          (updatedRunner now er g) (mapGitHubStatus g) ha]
        exact ⟨false, rfl⟩
    | some u =>
        rw [handleUnhealthyRunner_some u net now
          { s with runners := putRunner s.runners (updatedRunner now er g) }
          (updatedRunner now er g) (mapGitHubStatus g) ha]
        refine ⟨net s.log.length, ?_⟩
        dsimp only
        cases net s.log.length <;> rfl
  · intro hhn
    have h1 : ¬(mapGitHubStatus g ∈ UNHEALTHY_STATUSES ∧ mapGitHubStatus g ≠ er.status) :=
      fun h => hhn h.1
    have h2 : ¬(mapGitHubStatus g ∉ UNHEALTHY_STATUSES ∧ er.status ∈ UNHEALTHY_STATUSES) :=
      fun h => hh h.2
    simp only [matchedStep, if_neg h1, if_neg h2]

/-- C3 witness. -/
theorem C3_transition_opens_exactly_one_witness :
    ∃ b, (processRemoteRunner (some "w") (fun _ => true) 5 "m" [wIdle] wStIdle wOffG).outages =
      wStIdle.outages ++
        [{ openedEvent 5 wStIdle.outages (updatedRunner 5 wIdle wOffG)
            (mapGitHubStatus wOffG) with notificationSent := b }] :=
  ((C3_transition_opens_exactly_one (some "w") (fun _ => true) 5 "m" [wIdle] wStIdle
      wOffG wIdle rfl (by decide) (by decide)).1 (by decide)).2.2

/-- C2 (amended): a newly observed runner with no stored match is created
with `firstSeenAt = lastSeenAt = now` and persisted; if its initial status is
unhealthy AND the notification endpoint is configured, an OutageEvent is
opened and a dispatch attempted; absence of the endpoint short-circuits both
the outage opening and the dispatch on this path, and does not fail the
pass. -/
theorem C2_new_runner_create (w : Option String) (net : Nat → Bool) (now : Nat)
    (repoId : String) (existing : List Runner) (s : St) (g : GitHubRunner)
    (ha : s.aborted = false)
    (hf : existing.find? (fun r => r.runnerId == g.id) = none) :
    ((processRemoteRunner w net now repoId existing s g).runners =
        putRunner s.runners (newRunner now repoId g) ∧
      (newRunner now repoId g).firstSeenAt = now ∧
      (newRunner now repoId g).lastSeenAt = now) ∧
    (∀ u, w = some u → mapGitHubStatus g ∈ UNHEALTHY_STATUSES →
      ∃ b, (processRemoteRunner w net now repoId existing s g).outages =
          s.outages ++
            [{ openedEvent now s.outages (newRunner now repoId g) (mapGitHubStatus g) with
                notificationSent := b }] ∧
        (processRemoteRunner w net now repoId existing s g).log =
          s.log ++ [(Notification.alert repoId g.name (mapGitHubStatus g)
              (openedEvent now s.outages (newRunner now repoId g)
                (mapGitHubStatus g)).outageId,
            net s.log.length)]) ∧
    (w = none →
      (processRemoteRunner w net now repoId existing s g).outages = s.outages ∧
      (processRemoteRunner w net now repoId existing s g).log = s.log ∧
      (processRemoteRunner w net now repoId existing s g).aborted = false) := by
  rw [processRemoteRunner_unmatched w net now repoId existing s g ha hf]
  refine ⟨⟨unmatchedStep_runners w net now repoId s g, rfl, rfl⟩, ?_, ?_⟩
  · rintro u rfl hu
    have hc : mapGitHubStatus g ∈ UNHEALTHY_STATUSES ∧
        (some u : Option String).isSome = true := ⟨hu, rfl⟩
    have hstep : unmatchedStep (some u) net now repoId s g =
        handleUnhealthyRunner (some u) net now
          { s with runners := putRunner s.runners (newRunner now repoId g) }
          (newRunner now repoId g) (mapGitHubStatus g) := by
      simp only [unmatchedStep, if_pos hc]
    rw [hstep, handleUnhealthyRunner_some u net now
      { s with runners := putRunner s.runners (newRunner now repoId g) }
      (newRunner now repoId g) (mapGitHubStatus g) ha]
    refine ⟨net s.log.length, ?_, rfl⟩
    dsimp only
    cases net s.log.length <;> rfl
  · rintro rfl
    have h1 : ¬(mapGitHubStatus g ∈ UNHEALTHY_STATUSES ∧
        (none : Option String).isSome = true) := by simp
    have hstep : unmatchedStep none net now repoId s g =
        { s with runners := putRunner s.runners (newRunner now repoId g) } := by
      simp only [unmatchedStep, if_neg h1]
    rw [hstep]
    exact ⟨rfl, rfl, ha⟩

/-- C2 witness (for the amended claim). -/
theorem C2_new_runner_create_witness :
    (processRemoteRunner (some "w") (fun _ => true) 5 "m" [] wStEmpty wOffG).runners =
      putRunner wStEmpty.runners (newRunner 5 "m" wOffG) ∧
    (newRunner 5 "m" wOffG).firstSeenAt = 5 ∧
    (newRunner 5 "m" wOffG).lastSeenAt = 5 ∧
    ∃ b, (processRemoteRunner (some "w") (fun _ => true) 5 "m" [] wStEmpty wOffG).outages =
        wStEmpty.outages ++
          [{ openedEvent 5 wStEmpty.outages (newRunner 5 "m" wOffG)
              (mapGitHubStatus wOffG) with notificationSent := b }] := by
  have h := C2_new_runner_create (some "w") (fun _ => true) 5 "m" [] wStEmpty wOffG
    rfl (by decide)
  obtain ⟨b, hb, _⟩ := h.2.1 "w" rfl (by decide)
  exact ⟨h.1.1, h.1.2.1, h.1.2.2, b, hb⟩

/-- C2 counterexample: a new runner whose initial status is unhealthy, with
no notification endpoint configured — the runner record is created, but NO
OutageEvent is opened, contradicting the claim that absence of the endpoint
short-circuits only the dispatch while the outage is still opened
(`probe.ts` line 191 guards `handleUnhealthyRunner` itself on the webhook). -/
theorem C2_counterexample :
    mapGitHubStatus wOffG ∈ UNHEALTHY_STATUSES ∧
    (processRemoteRunner none (fun _ => true) 5 "m" [] wStEmpty wOffG).runners =
      [newRunner 5 "m" wOffG] ∧
    (processRemoteRunner none (fun _ => true) 5 "m" [] wStEmpty wOffG).outages = [] ∧
    (processRemoteRunner none (fun _ => true) 5 "m" [] wStEmpty wOffG).aborted = false := by
  decide

/-- C7: the missing-runner sweep writes only the status change to UNKNOWN —
the written record keeps `lastSeenAt` (and every other field) of the swept
snapshot — while `lastSeenAt` is set to `now` exactly on the two paths where
the runner appears in the current remote fetch: the update path and the
creation path. -/
theorem C7_lastSeenAt_only_when_observed (w : Option String) (net : Nat → Bool)
    (now : Nat) (ids : List Nat) (repoId : String) (existing : List Runner) (s : St)
    (g : GitHubRunner) (er : Runner) :
    (({ er with status := UNKNOWN } : Runner).lastSeenAt = er.lastSeenAt ∧
      ({ er with status := UNKNOWN } : Runner).firstSeenAt = er.firstSeenAt ∧
      ({ er with status := UNKNOWN } : Runner).name = er.name ∧
      ((sweepRunner w net now ids s er).runners = s.runners ∨
        (sweepRunner w net now ids s er).runners =
          putRunner s.runners { er with status := UNKNOWN })) ∧
    (s.aborted = false → existing.find? (fun r => r.runnerId == g.id) = some er →
      (processRemoteRunner w net now repoId existing s g).runners =
        putRunner s.runners (updatedRunner now er g) ∧
      (updatedRunner now er g).lastSeenAt = now ∧
      (updatedRunner now er g).firstSeenAt = er.firstSeenAt) ∧
    (s.aborted = false → existing.find? (fun r => r.runnerId == g.id) = none →
      (processRemoteRunner w net now repoId existing s g).runners =
        putRunner s.runners (newRunner now repoId g) ∧
      (newRunner now repoId g).lastSeenAt = now) := by
  refine ⟨⟨rfl, rfl, rfl, ?_⟩, fun ha hf => ?_, fun ha hf => ?_⟩
  · by_cases hab : s.aborted = true
    · exact Or.inl (by simp [sweepRunner, hab])
    · have ha' : s.aborted = false := by simpa using hab
      by_cases hm : er.runnerId ∈ ids
      · exact Or.inl (by simp [sweepRunner, ha', hm])
      · by_cases hst : er.status = UNKNOWN
        · exact Or.inl (by simp [sweepRunner, ha', hm, hst])
        · refine Or.inr ?_
          simp only [sweepRunner, ha', Bool.false_eq_true, if_false, if_neg hm, if_pos hst]
          split
          · rw [(handleUnhealthyRunner_frame _ _ _ _ _ _).1]
          · rfl
  · rw [processRemoteRunner_matched w net now repoId existing s g er ha hf]
    exact ⟨matchedStep_runners w net now repoId s g er, rfl, rfl⟩
  · rw [processRemoteRunner_unmatched w net now repoId existing s g ha hf]
    exact ⟨unmatchedStep_runners w net now repoId s g, rfl⟩

/-- C7 witness. -/
theorem C7_lastSeenAt_only_when_observed_witness :
    ((sweepRunner none (fun _ => true) 7 [] wStIdle wIdle).runners = wStIdle.runners ∨
      (sweepRunner none (fun _ => true) 7 [] wStIdle wIdle).runners =
        putRunner wStIdle.runners { wIdle with status := UNKNOWN }) ∧
    (processRemoteRunner (some "w") (fun _ => true) 5 "m" [wIdle] wStIdle wOnG).runners =
      putRunner wStIdle.runners (updatedRunner 5 wIdle wOnG) ∧
    (processRemoteRunner (some "w") (fun _ => true) 5 "m" [] wStEmpty wOnG).runners =
      putRunner wStEmpty.runners (newRunner 5 "m" wOnG) := by
  refine ⟨(C7_lastSeenAt_only_when_observed none (fun _ => true) 7 [] "m" [wIdle]
      wStIdle wOnG wIdle).1.2.2.2, ?_, ?_⟩
  · exact ((C7_lastSeenAt_only_when_observed (some "w") (fun _ => true) 5 [] "m" [wIdle]
      wStIdle wOnG wIdle).2.1 rfl (by decide)).1
  · exact ((C7_lastSeenAt_only_when_observed (some "w") (fun _ => true) 5 [] "m" []
      wStEmpty wOnG wIdle).2.2 rfl (by decide)).1

/-- C8: when dispatch succeeds the OutageEvent is persisted with
`notificationSent = true`; when dispatch fails only the sink log records the
failure, `notificationSent` stays false and the pass does not abort; and on a
later pass in which the runner's stored status equals the newly classified
status, no outage is opened and no dispatch occurs — only a further state
change re-triggers dispatch. -/
theorem C8_dispatch_once (u : String) (w : Option String) (net : Nat → Bool)
    (now : Nat) (s : St) (runner : Runner) (status : RunnerStatus) (repoId : String)
    (existing : List Runner) (g : GitHubRunner) (er : Runner) (ha : s.aborted = false) :
    (net s.log.length = true →
      handleUnhealthyRunner (some u) net now s runner status =
        { s with
          outages := s.outages ++
            [{ openedEvent now s.outages runner status with notificationSent := true }]
          log := s.log ++ [(Notification.alert runner.repoId runner.name status
              (openedEvent now s.outages runner status).outageId, true)] }) ∧
    (net s.log.length = false →
      handleUnhealthyRunner (some u) net now s runner status =
        { s with
          outages := s.outages ++ [openedEvent now s.outages runner status]
          log := s.log ++ [(Notification.alert runner.repoId runner.name status
              (openedEvent now s.outages runner status).outageId, false)] } ∧
      (openedEvent now s.outages runner status).notificationSent = false) ∧
    (existing.find? (fun r => r.runnerId == g.id) = some er →
      er.status = mapGitHubStatus g →
      (processRemoteRunner w net now repoId existing s g).outages = s.outages ∧
      (processRemoteRunner w net now repoId existing s g).log = s.log ∧
      (processRemoteRunner w net now repoId existing s g).aborted = false) := by
  refine ⟨fun hok => ?_, fun hok => ?_, fun hf hst => ?_⟩
  · rw [handleUnhealthyRunner_some u net now s runner status ha, hok]
    simp
  · rw [handleUnhealthyRunner_some u net now s runner status ha, hok]
    exact ⟨by simp, rfl⟩
  · rw [processRemoteRunner_matched w net now repoId existing s g er ha hf,
      matchedStep_stable w net now repoId s g er hst]
    exact ⟨rfl, rfl, ha⟩

/-- C8 witness. -/
theorem C8_dispatch_once_witness :
    handleUnhealthyRunner (some "w") (fun _ => true) 5 wStEmpty wIdle OFFLINE =
      { wStEmpty with
        outages := wStEmpty.outages ++
          [{ openedEvent 5 wStEmpty.outages wIdle OFFLINE with notificationSent := true }]
        log := wStEmpty.log ++ [(Notification.alert wIdle.repoId wIdle.name OFFLINE
            (openedEvent 5 wStEmpty.outages wIdle OFFLINE).outageId, true)] } ∧
    handleUnhealthyRunner (some "w") (fun _ => false) 5 wStEmpty wIdle OFFLINE =
      { wStEmpty with
        outages := wStEmpty.outages ++ [openedEvent 5 wStEmpty.outages wIdle OFFLINE]
        log := wStEmpty.log ++ [(Notification.alert wIdle.repoId wIdle.name OFFLINE
            (openedEvent 5 wStEmpty.outages wIdle OFFLINE).outageId, false)] } ∧
    (processRemoteRunner (some "w") (fun _ => true) 5 "m" [wOffline] wStOffResolved
        wOffG).outages = wStOffResolved.outages := by
  refine ⟨?_, ?_, ?_⟩
  · exact (C8_dispatch_once "w" (some "w") (fun _ => true) 5 wStEmpty wIdle OFFLINE "m"
      [] wOnG wIdle rfl).1 rfl
  · exact ((C8_dispatch_once "w" (some "w") (fun _ => false) 5 wStEmpty wIdle OFFLINE "m"
      [] wOnG wIdle rfl).2.1 rfl).1
  · exact ((C8_dispatch_once "w" (some "w") (fun _ => true) 5 wStOffResolved wIdle OFFLINE
      "m" [wOffline] wOffG wOffline rfl).2.2 (by decide) (by decide)).1

/-- C10: when a stored runner transitions from unhealthy to healthy but no
open outage exists (its most recent outage is already resolved, or it has no
history), `resolveOutage` performs no write and returns the sentinel 0, and a
recovery notification carrying outage identifier 0 is nevertheless dispatched
whenever the notification endpoint is configured. -/
theorem C10_recovery_with_zero_id (w : Option String) (net : Nat → Bool) (now : Nat)
    (repoId : String) (existing : List Runner) (s : St) (g : GitHubRunner) (er : Runner)
    (ha : s.aborted = false)
    (hf : existing.find? (fun r => r.runnerId == g.id) = some er)
    (hu : er.status ∈ UNHEALTHY_STATUSES)
    (hh : mapGitHubStatus g ∉ UNHEALTHY_STATUSES)
    (hres : ∀ e, latestOutage s.outages repoId g.id = some e → e.resolvedAt ≠ none) :
    (processRemoteRunner w net now repoId existing s g).outages = s.outages ∧
    (∀ u, w = some u →
      (processRemoteRunner w net now repoId existing s g).log =
        s.log ++ [(Notification.recovery er.repoId g.name (mapGitHubStatus g) 0,
          net s.log.length)]) ∧
    (w = none →
      processRemoteRunner w net now repoId existing s g =
        { s with runners := putRunner s.runners (updatedRunner now er g) }) := by
  rw [processRemoteRunner_matched w net now repoId existing s g er ha hf]
  have h1 : ¬(mapGitHubStatus g ∈ UNHEALTHY_STATUSES ∧ mapGitHubStatus g ≠ er.status) :=
    fun h => hh h.1
  have hc2 : mapGitHubStatus g ∉ UNHEALTHY_STATUSES ∧ er.status ∈ UNHEALTHY_STATUSES :=
    ⟨hh, hu⟩
  have hstep : matchedStep w net now repoId s g er =
      recoveryStep w net now repoId
        { s with runners := putRunner s.runners (updatedRunner now er g) } g er := by
    simp only [matchedStep, if_neg h1, if_pos hc2]
  rw [hstep]
  have hpr : resolveOutage now
      { s with runners := putRunner s.runners (updatedRunner now er g) } repoId g.id =
      ({ s with runners := putRunner s.runners (updatedRunner now er g) }, 0) := by
    rcases hl : latestOutage
        ({ s with runners := putRunner s.runners (updatedRunner now er g) } : St).outages
        repoId g.id with _ | e
    · simp [resolveOutage, hl]
    · have hne : e.resolvedAt ≠ none := hres e hl
      simp [resolveOutage, hl, hne]
  cases w with
  | none =>
      have hrec : recoveryStep none net now repoId
          { s with runners := putRunner s.runners (updatedRunner now er g) } g er =
          { s with runners := putRunner s.runners (updatedRunner now er g) } := by
        simp [recoveryStep, hpr]
      rw [hrec]
      exact ⟨rfl, fun v hv => Option.noConfusion hv, fun _ => rfl⟩
  | some u =>
      have hrec : recoveryStep (some u) net now repoId
          { s with runners := putRunner s.runners (updatedRunner now er g) } g er =
          { s with
            runners := putRunner s.runners (updatedRunner now er g)
            log := s.log ++
              [(Notification.recovery er.repoId g.name (mapGitHubStatus g) 0,
                net s.log.length)]
            aborted := !(net s.log.length) } := by
        simp [recoveryStep, hpr]
      rw [hrec]
      exact ⟨rfl, fun v hv => rfl, fun hn => Option.noConfusion hn⟩

/-- C10 witness. -/
theorem C10_recovery_with_zero_id_witness :
    (processRemoteRunner (some "w") (fun _ => true) 5 "m" [wOffline] wStOffResolved
        wOnG).outages = wStOffResolved.outages ∧
    (processRemoteRunner (some "w") (fun _ => true) 5 "m" [wOffline] wStOffResolved
        wOnG).log =
      wStOffResolved.log ++
        [(Notification.recovery wOffline.repoId wOnG.name (mapGitHubStatus wOnG) 0, true)] := by
  have h := C10_recovery_with_zero_id (some "w") (fun _ => true) 5 "m" [wOffline]
    wStOffResolved wOnG wOffline rfl (by decide) (by decide) (by decide)
    (fun e he => by
      rw [show latestOutage wStOffResolved.outages "m" wOnG.id = some wOut1 by decide] at he
      obtain rfl : wOut1 = e := by injection he
      decide)
  exact ⟨h.1, h.2.1 "w" rfl⟩

/-- C1 (evaluating the failing input): from a state satisfying the
at-most-one-open-outage invariant — one stored runner swept to UNKNOWN with
one open OutageEvent — a single reconciliation pass in which the remote fetch
reports that runner as "offline" produces a SECOND open OutageEvent for the
same (repository, runner): the matched-path guard (`probe.ts` line 142) only
checks `status !== oldStatus`, so an unhealthy-to-unhealthy change opens a
new outage without resolving the previous one. -/
theorem C1_invariant_broken_at_failing_input :
    (openOutagesFor wStUnknownOpen.outages "m" 1).length = 1 ∧
    (openOutagesFor
        (processRepository none (fun _ => true) 7 "o/m" [wOffG] wStUnknownOpen).outages
        "m" 1).length = 2 := by
  decide

/-- C5 counterexample: a runner renamed in GitHub (same id, new name) leaves
a stale record under the old name key; with the remote set unchanged across
two passes, the second pass matches the stale record again and opens a new
OutageEvent, so reconciliation is NOT idempotent as claimed. -/
theorem C5_counterexample :
    (processRepository none (fun _ => true) 7 "o/m" [wRenameG] wStIdle).outages.length
        = 1 ∧
    (processRepository none (fun _ => true) 9 "o/m" [wRenameG]
        (processRepository none (fun _ => true) 7 "o/m" [wRenameG] wStIdle)).outages.length
        = 2 := by
  decide

/-! ### Store and fold utilities for the idempotence analysis -/

lemma putRunner_of_mem (rs : List Runner) (r : Runner)
    (h : ∃ x ∈ rs, x.repoId = r.repoId ∧ x.name = r.name) :
    putRunner rs r =
      rs.map (fun x => if x.repoId = r.repoId ∧ x.name = r.name then r else x) := by
  simp only [putRunner]
  rw [if_pos h]

lemma putRunner_of_fresh (rs : List Runner) (r : Runner)
    (h : ∀ x ∈ rs, ¬(x.repoId = r.repoId ∧ x.name = r.name)) :
    putRunner rs r = rs ++ [r] := by
  simp only [putRunner]
  rw [if_neg]
  rintro ⟨x, hx, hk⟩
  exact h x hx hk

lemma putRunner_mem_of_ne (rs : List Runner) (r x : Runner) (hx : x ∈ rs)
    (hne : ¬(x.repoId = r.repoId ∧ x.name = r.name)) : x ∈ putRunner rs r := by
  simp only [putRunner]
  split
  · exact List.mem_map.mpr ⟨x, hx, by rw [if_neg hne]⟩
  · exact List.mem_append.mpr (Or.inl hx)

lemma findRunner_none_iff (l : List Runner) (id : Nat) :
    l.find? (fun r => r.runnerId == id) = none ↔ ∀ r ∈ l, r.runnerId ≠ id := by
  rw [List.find?_eq_none]
  constructor
  · intro h r hr
    simpa using h r hr
  · intro h r hr
    simpa using h r hr

lemma findRunner_some_facts (l : List Runner) (id : Nat) (er : Runner)
    (h : l.find? (fun r => r.runnerId == id) = some er) : er ∈ l ∧ er.runnerId = id :=
  ⟨List.mem_of_find?_eq_some h, by simpa using List.find?_some h⟩

lemma findRunner_isSome (l : List Runner) (id : Nat)
    (h : ∃ r ∈ l, r.runnerId = id) :
    ∃ er, l.find? (fun r => r.runnerId == id) = some er := by
  have hs : (l.find? (fun r => r.runnerId == id)).isSome = true := by
    refine List.find?_isSome.mpr ?_
    obtain ⟨r, hr, he⟩ := h
    exact ⟨r, hr, by simpa using he⟩
  exact Option.isSome_iff_exists.mp hs

lemma findRemote_none_iff (l : List GitHubRunner) (rid : Nat) :
    l.find? (fun g => g.id == rid) = none ↔ ∀ g ∈ l, g.id ≠ rid := by
  rw [List.find?_eq_none]
  constructor
  · intro h g hg
    simpa using h g hg
  · intro h g hg
    simpa using h g hg

lemma findRemote_some_facts (l : List GitHubRunner) (rid : Nat) (g : GitHubRunner)
    (h : l.find? (fun x => x.id == rid) = some g) : g ∈ l ∧ g.id = rid :=
  ⟨List.mem_of_find?_eq_some h, by simpa using List.find?_some h⟩

lemma processRemoteRunner_of_aborted (w : Option String) (net : Nat → Bool) (now : Nat)
    (repoId : String) (E : List Runner) (s : St) (g : GitHubRunner)
    (hs : s.aborted = true) : processRemoteRunner w net now repoId E s g = s := by
  simp [processRemoteRunner, hs]

lemma foldl_diff_aborted_mono (w : Option String) (net : Nat → Bool) (now : Nat)
    (repoId : String) (E : List Runner) :
    ∀ (l : List GitHubRunner) (s : St),
      (l.foldl (processRemoteRunner w net now repoId E) s).aborted = false →
      s.aborted = false := by
  intro l
  induction l with
  | nil => intro s h; exact h
  | cons g l ih =>
      intro s h
      by_cases hs : s.aborted = true
      · rw [List.foldl_cons, processRemoteRunner_of_aborted _ _ _ _ _ _ _ hs] at h
        exact ih s h
      · simpa using hs

lemma sweepRunner_aborted (w : Option String) (net : Nat → Bool) (now : Nat)
    (ids : List Nat) (s : St) (er : Runner) :
    (sweepRunner w net now ids s er).aborted = s.aborted := by
  by_cases ha : s.aborted = true
  · simp [sweepRunner, ha]
  · have ha' : s.aborted = false := by simpa using ha
    by_cases hm : er.runnerId ∈ ids
    · simp [sweepRunner, ha', hm]
    · by_cases hst : er.status = UNKNOWN
      · simp [sweepRunner, ha', hm, hst]
      · have hstne : er.status ≠ UNKNOWN := hst
        simp only [sweepRunner, ha', Bool.false_eq_true, if_false, if_neg hm, if_pos hstne]
        split
        · rw [(handleUnhealthyRunner_frame _ _ _ _ _ _).2.1]
        · rfl

lemma foldl_sweep_aborted (w : Option String) (net : Nat → Bool) (now : Nat)
    (ids : List Nat) :
    ∀ (E : List Runner) (s : St),
      (E.foldl (sweepRunner w net now ids) s).aborted = s.aborted := by
  intro E
  induction E with
  | nil => intro s; rfl
  | cons er E ih =>
      intro s
      rw [List.foldl_cons, ih, sweepRunner_aborted]

lemma sweepRunner_noop (w : Option String) (net : Nat → Bool) (now : Nat)
    (ids : List Nat) (s : St) (er : Runner)
    (h : er.runnerId ∈ ids ∨ er.status = UNKNOWN) :
    sweepRunner w net now ids s er = s := by
  by_cases ha : s.aborted = true
  · simp [sweepRunner, ha]
  · have ha' : s.aborted = false := by simpa using ha
    rcases h with h | h
    · simp [sweepRunner, ha', h]
    · by_cases hm : er.runnerId ∈ ids
      · simp [sweepRunner, ha', hm]
      · simp [sweepRunner, ha', hm, h]

lemma sweep_noop_fold (w : Option String) (net : Nat → Bool) (now : Nat)
    (ids : List Nat) :
    ∀ (E : List Runner) (s : St),
      (∀ er ∈ E, er.runnerId ∈ ids ∨ er.status = UNKNOWN) →
      E.foldl (sweepRunner w net now ids) s = s := by
  intro E
  induction E with
  | nil => intro s _; rfl
  | cons er E ih =>
      intro s h
      rw [List.foldl_cons, sweepRunner_noop _ _ _ _ _ _ (h er (List.mem_cons_self _ _))]
      exact ih s (fun x hx => h x (List.mem_cons_of_mem _ hx))

lemma ensureRepository_frame (now : Nat) (s : St) (owner repoId : String) :
    (ensureRepository now s owner repoId).runners = s.runners ∧
    (ensureRepository now s owner repoId).outages = s.outages ∧
    (ensureRepository now s owner repoId).log = s.log ∧
    (ensureRepository now s owner repoId).aborted = s.aborted := by
  by_cases ha : s.aborted = true
  · simp [ensureRepository, ha]
  · have ha' : s.aborted = false := by simpa using ha
    rcases hf : s.repos.find? (fun r => r.repoId == repoId) with _ | repo <;>
      simp [ensureRepository, ha', hf]

lemma stable_fold (w : Option String) (net : Nat → Bool) (now : Nat) (repoId : String)
    (E : List Runner) :
    ∀ (l : List GitHubRunner) (s : St),
      (∀ g ∈ l, ∃ er, E.find? (fun r => r.runnerId == g.id) = some er ∧
        er.status = mapGitHubStatus g ∧ er.repoId = repoId) →
      s.aborted = false →
      ((l.foldl (processRemoteRunner w net now repoId E) s).outages = s.outages ∧
        (l.foldl (processRemoteRunner w net now repoId E) s).log = s.log ∧
        (l.foldl (processRemoteRunner w net now repoId E) s).repos = s.repos ∧
        (l.foldl (processRemoteRunner w net now repoId E) s).aborted = false ∧
        (∀ x ∈ s.runners, (∀ g ∈ l, ¬(x.repoId = repoId ∧ x.name = g.name)) →
          x ∈ (l.foldl (processRemoteRunner w net now repoId E) s).runners)) := by
  intro l
  induction l with
  | nil => intro s _ ha; exact ⟨rfl, rfl, rfl, ha, fun x hx _ => hx⟩
  | cons g l ih =>
      intro s h ha
      obtain ⟨er, hf, hst, hrepo⟩ := h g (List.mem_cons_self _ _)
      have hstep : processRemoteRunner w net now repoId E s g =
          { s with runners := putRunner s.runners (updatedRunner now er g) } := by
        rw [processRemoteRunner_matched w net now repoId E s g er ha hf,
          matchedStep_stable w net now repoId s g er hst]
      rw [List.foldl_cons, hstep]
      obtain ⟨h1, h2, h3, h4, h5⟩ :=
        ih { s with runners := putRunner s.runners (updatedRunner now er g) }
          (fun g' hg' => h g' (List.mem_cons_of_mem _ hg')) ha
      refine ⟨h1, h2, h3, h4, ?_⟩
      intro x hx hkeys2
      refine h5 x ?_ (fun g' hg' => hkeys2 g' (List.mem_cons_of_mem _ hg'))
      apply putRunner_mem_of_ne _ _ _ hx
      intro hk
      apply hkeys2 g (List.mem_cons_self _ _)
      simp only [updatedRunner] at hk
      exact ⟨hk.1.trans hrepo, hk.2⟩

/-! ### The remote-diff phase rewrites the store shape -/

lemma applyDiff_nil (now : Nat) (repoId : String) (r : Runner) :
    applyDiff now repoId [] r = r := by
  simp [applyDiff]

lemma remote_split_facts (remote done rem : List GitHubRunner) (g : GitHubRunner)
    (hsplit : done ++ g :: rem = remote) (hR : RemoteWF remote) :
    g ∈ remote ∧ (∀ x ∈ done, x ∈ remote) ∧ (∀ x ∈ done, x.id ≠ g.id) ∧
      (∀ x ∈ done, x.name ≠ g.name) := by
  subst hsplit
  obtain ⟨hids, hnames⟩ := hR
  rw [List.map_append, List.nodup_append] at hids hnames
  refine ⟨List.mem_append.mpr (Or.inr (List.mem_cons_self _ _)),
    fun x hx => List.mem_append.mpr (Or.inl hx), ?_, ?_⟩
  · intro x hx he
    exact hids.2.2 (List.mem_map.mpr ⟨x, hx, rfl⟩)
      (by rw [List.map_cons, he]; exact List.mem_cons_self _ _)
  · intro x hx he
    exact hnames.2.2 (List.mem_map.mpr ⟨x, hx, rfl⟩)
      (by rw [List.map_cons, he]; exact List.mem_cons_self _ _)

lemma E_name_inj (orig : List Runner) (repoId : String) (hkeys : KeysNodup orig) :
    ∀ x ∈ orig.filter (fun r => r.repoId = repoId),
      ∀ y ∈ orig.filter (fun r => r.repoId = repoId), x.name = y.name → x = y := by
  intro x hx y hy hname
  by_contra hne
  rcases List.mem_filter.mp hx with ⟨hx1, hx2⟩
  rcases List.mem_filter.mp hy with ⟨hy1, hy2⟩
  simp only [decide_eq_true_eq] at hx2 hy2
  have hsymm : Symmetric (fun a b : Runner => ¬(a.repoId = b.repoId ∧ a.name = b.name)) := by
    intro a b h hk
    exact h ⟨hk.1.symm, hk.2.symm⟩
  exact hkeys.forall hsymm hx1 hy1 hne ⟨hx2.trans hy2.symm, hname⟩

lemma findRemote_singleton_none (g : GitHubRunner) (rid : Nat) (h : g.id ≠ rid) :
    [g].find? (fun x => x.id == rid) = none := by
  rw [List.find?_eq_none]
  intro x hx
  obtain rfl := List.mem_singleton.mp hx
  simpa using h

lemma findRemote_singleton_some (g : GitHubRunner) (rid : Nat) (h : g.id = rid) :
    [g].find? (fun x => x.id == rid) = some g :=
  List.find?_cons_of_pos _ (by simpa using h)

lemma diffShape_step (now : Nat) (repoId : String)
    (remote done : List GitHubRunner) (g : GitHubRunner) (orig : List Runner)
    (hkeys : KeysNodup orig) (hids : RepoIdsNodup orig repoId)
    (hcons : Consistent orig repoId remote)
    (hg : g ∈ remote)
    (hdsub : ∀ x ∈ done, x ∈ remote)
    (hdid : ∀ x ∈ done, x.id ≠ g.id)
    (hdname : ∀ x ∈ done, x.name ≠ g.name) :
    putRunner
      (orig.map (applyDiff now repoId done) ++
        createdRunners now repoId (orig.filter (fun r => r.repoId = repoId)) done)
      (match (orig.filter (fun r => r.repoId = repoId)).find?
          (fun r => r.runnerId == g.id) with
        | some er => updatedRunner now er g
        | none => newRunner now repoId g) =
      orig.map (applyDiff now repoId (done ++ [g])) ++
        createdRunners now repoId (orig.filter (fun r => r.repoId = repoId)) (done ++ [g]) := by
  have hconsE : ∀ r ∈ orig.filter (fun x => x.repoId = repoId), ∀ g' ∈ remote,
      (r.name = g'.name ↔ r.runnerId = g'.id) := by
    intro r hr
    rcases List.mem_filter.mp hr with ⟨h1, h2⟩
    simp only [decide_eq_true_eq] at h2
    exact hcons r h1 h2
  have hidinjE := List.inj_on_of_nodup_map hids
  rcases hfind : (orig.filter (fun r => r.repoId = repoId)).find?
      (fun r => r.runnerId == g.id) with _ | er
  · -- no stored match: a fresh record is appended
    simp only [hfind]
    have hnone := (findRunner_none_iff _ _).mp hfind
    have hfresh : ∀ x ∈ orig.map (applyDiff now repoId done) ++
        createdRunners now repoId (orig.filter (fun r => r.repoId = repoId)) done,
        ¬(x.repoId = (newRunner now repoId g).repoId ∧
          x.name = (newRunner now repoId g).name) := by
      intro x hx hk
      rcases List.mem_append.mp hx with hx | hx
      · obtain ⟨r, hr, rfl⟩ := List.mem_map.mp hx
        by_cases hrrepo : r.repoId = repoId
        · have hrE : r ∈ orig.filter (fun x => x.repoId = repoId) :=
            List.mem_filter.mpr ⟨hr, by simpa using hrrepo⟩
          rcases hfd : done.find? (fun x => x.id == r.runnerId) with _ | g₂
          · have happ : applyDiff now repoId done r = r := by
              simp [applyDiff, hrrepo, hfd]
            rw [happ] at hk
            exact hnone r hrE ((hconsE r hrE g hg).mp hk.2)
          · have happ : applyDiff now repoId done r = updatedRunner now r g₂ := by
              simp [applyDiff, hrrepo, hfd]
            rw [happ] at hk
            exact hdname g₂ (List.mem_of_find?_eq_some hfd) hk.2
        · have happ : applyDiff now repoId done r = r := by simp [applyDiff, hrrepo]
          rw [happ] at hk
          exact hrrepo hk.1
      · obtain ⟨g', hg', rfl⟩ := List.mem_map.mp hx
        exact hdname g' (List.mem_filter.mp hg').1 hk.2
    rw [putRunner_of_fresh _ _ hfresh]
    have hmap : orig.map (applyDiff now repoId (done ++ [g])) =
        orig.map (applyDiff now repoId done) := by
      refine List.map_congr_left ?_
      intro r hr
      by_cases hrrepo : r.repoId = repoId
      · rcases hfd : done.find? (fun x => x.id == r.runnerId) with _ | g₂
        · have hrE : r ∈ orig.filter (fun x => x.repoId = repoId) :=
            List.mem_filter.mpr ⟨hr, by simpa using hrrepo⟩
          have h2 : (done ++ [g]).find? (fun x => x.id == r.runnerId) = none := by
            rw [List.find?_append, hfd,
              findRemote_singleton_none g r.runnerId (fun he => hnone r hrE he.symm)]
            rfl
          simp [applyDiff, hrrepo, hfd, h2]
        · have h2 : (done ++ [g]).find? (fun x => x.id == r.runnerId) = some g₂ := by
            rw [List.find?_append, hfd]
            rfl
          simp [applyDiff, hrrepo, hfd, h2]
      · simp [applyDiff, hrrepo]
    have hcr : createdRunners now repoId (orig.filter (fun r => r.repoId = repoId))
        (done ++ [g]) =
        createdRunners now repoId (orig.filter (fun r => r.repoId = repoId)) done ++
          [newRunner now repoId g] := by
      simp only [createdRunners, List.filter_append, List.map_append]
      congr 1
      rw [show List.filter
          (fun g' => ((orig.filter (fun r => r.repoId = repoId)).find?
            (fun r => r.runnerId == g'.id)).isNone) [g] = [g] from by
        rw [List.filter_cons, hfind]
        rfl]
      rfl
    rw [hmap, hcr, List.append_assoc]
  · -- stored match: the record is overwritten in place
    simp only [hfind]
    obtain ⟨herE, herid⟩ := findRunner_some_facts _ g.id er hfind
    have her_orig : er ∈ orig := (List.mem_filter.mp herE).1
    have her_repo : er.repoId = repoId := by
      have := (List.mem_filter.mp herE).2
      simpa using this
    have her_name : er.name = g.name := (hconsE er herE g hg).mpr herid
    have hfd_er : done.find? (fun x => x.id == er.runnerId) = none := by
      rw [List.find?_eq_none]
      intro x hx
      simp only [beq_iff_eq]
      rw [herid]
      exact hdid x hx
    have happ_er : applyDiff now repoId done er = er := by
      simp [applyDiff, her_repo, hfd_er]
    have hmem : ∃ x ∈ orig.map (applyDiff now repoId done) ++
        createdRunners now repoId (orig.filter (fun r => r.repoId = repoId)) done,
        x.repoId = (updatedRunner now er g).repoId ∧
          x.name = (updatedRunner now er g).name := by
      refine ⟨er, List.mem_append.mpr (Or.inl (List.mem_map.mpr ⟨er, her_orig, happ_er⟩)),
        rfl, her_name⟩
    rw [putRunner_of_mem _ _ hmem, List.map_append]
    have hcr : createdRunners now repoId (orig.filter (fun r => r.repoId = repoId))
        (done ++ [g]) =
        createdRunners now repoId (orig.filter (fun r => r.repoId = repoId)) done := by
      simp only [createdRunners, List.filter_append]
      rw [show List.filter
          (fun g' => ((orig.filter (fun r => r.repoId = repoId)).find?
            (fun r => r.runnerId == g'.id)).isNone) [g] = [] from by
        rw [List.filter_cons, hfind]
        rfl]
      simp
    rw [hcr]
    congr 1
    · rw [List.map_map]
      refine List.map_congr_left ?_
      intro r hr
      by_cases hrrepo : r.repoId = repoId
      · have hrE : r ∈ orig.filter (fun x => x.repoId = repoId) :=
          List.mem_filter.mpr ⟨hr, by simpa using hrrepo⟩
        rcases hfd : done.find? (fun x => x.id == r.runnerId) with _ | g₂
        · by_cases hid : r.runnerId = g.id
          · have hre : r = er := hidinjE hrE herE (by rw [hid, herid])
            subst hre
            have happ2 : applyDiff now repoId (done ++ [g]) r =
                updatedRunner now r g := by
              simp only [applyDiff, if_pos hrrepo]
              rw [List.find?_append, hfd, findRemote_singleton_some g r.runnerId hid.symm]
              rfl
            simp only [Function.comp_apply, happ_er, happ2]
            rw [if_pos ⟨rfl, her_name⟩]
          · have hname_ne : r.name ≠ g.name := fun he => hid ((hconsE r hrE g hg).mp he)
            have happ : applyDiff now repoId done r = r := by
              simp [applyDiff, hrrepo, hfd]
            have happ2 : applyDiff now repoId (done ++ [g]) r = r := by
              simp only [applyDiff, if_pos hrrepo]
              rw [List.find?_append, hfd,
                findRemote_singleton_none g r.runnerId (fun he => hid he.symm)]
              rfl
            simp only [Function.comp_apply, happ, happ2]
            rw [if_neg]
            rintro ⟨_, h2⟩
            exact hname_ne h2
        · obtain ⟨hg₂done, hg₂id⟩ := findRemote_some_facts done r.runnerId g₂ hfd
          have happ : applyDiff now repoId done r = updatedRunner now r g₂ := by
            simp [applyDiff, hrrepo, hfd]
          have happ2 : applyDiff now repoId (done ++ [g]) r = updatedRunner now r g₂ := by
            simp only [applyDiff, if_pos hrrepo]
            rw [List.find?_append, hfd]
            rfl
          simp only [Function.comp_apply, happ, happ2]
          rw [if_neg]
          rintro ⟨_, h2⟩
          exact hdname g₂ hg₂done h2
      · have happ : applyDiff now repoId done r = r := by simp [applyDiff, hrrepo]
        have happ2 : applyDiff now repoId (done ++ [g]) r = r := by
          simp [applyDiff, hrrepo]
        simp only [Function.comp_apply, happ, happ2]
        rw [if_neg]
        rintro ⟨h1, _⟩
        exact hrrepo (h1.trans her_repo)
    · refine Eq.trans (List.map_congr_left ?_) (List.map_id _)
      intro c hc
      obtain ⟨g', hg'mem, rfl⟩ := List.mem_map.mp hc
      have hg'done : g' ∈ done := (List.mem_filter.mp hg'mem).1
      show (if _ then updatedRunner now er g else newRunner now repoId g') = _
      rw [if_neg, id]
      rintro ⟨_, h2⟩
      exact hdname g' hg'done h2

lemma diffShape_fold (w : Option String) (net : Nat → Bool) (now : Nat)
    (repoId : String) (remote : List GitHubRunner) (orig : List Runner)
    (hkeys : KeysNodup orig) (hids : RepoIdsNodup orig repoId)
    (hR : RemoteWF remote) (hcons : Consistent orig repoId remote) :
    ∀ (rem done : List GitHubRunner) (s : St),
      done ++ rem = remote →
      s.runners = orig.map (applyDiff now repoId done) ++
        createdRunners now repoId (orig.filter (fun r => r.repoId = repoId)) done →
      s.aborted = false →
      (rem.foldl (processRemoteRunner w net now repoId
          (orig.filter (fun r => r.repoId = repoId))) s).aborted = false →
      (rem.foldl (processRemoteRunner w net now repoId
          (orig.filter (fun r => r.repoId = repoId))) s).runners =
        orig.map (applyDiff now repoId remote) ++
          createdRunners now repoId (orig.filter (fun r => r.repoId = repoId)) remote := by
  intro rem
  induction rem with
  | nil =>
      intro done s hsplit hs _ _
      rw [List.append_nil] at hsplit
      subst hsplit
      simpa using hs
  | cons g rem ih =>
      intro done s hsplit hs ha hfin
      obtain ⟨hg, hdsub, hdid, hdname⟩ := remote_split_facts remote done rem g hsplit hR
      rw [List.foldl_cons] at hfin ⊢
      have ha' : (processRemoteRunner w net now repoId
          (orig.filter (fun r => r.repoId = repoId)) s g).aborted = false :=
        foldl_diff_aborted_mono w net now repoId _ rem _ hfin
      have hrun : (processRemoteRunner w net now repoId
          (orig.filter (fun r => r.repoId = repoId)) s g).runners =
          putRunner s.runners
            (match (orig.filter (fun r => r.repoId = repoId)).find?
                (fun r => r.runnerId == g.id) with
              | some er => updatedRunner now er g
              | none => newRunner now repoId g) := by
        rcases hf : (orig.filter (fun r => r.repoId = repoId)).find?
            (fun r => r.runnerId == g.id) with _ | er
        · rw [processRemoteRunner_unmatched w net now repoId _ s g ha hf, hf,
            unmatchedStep_runners]
        · rw [processRemoteRunner_matched w net now repoId _ s g er ha hf, hf,
            matchedStep_runners]
      have hs' : (processRemoteRunner w net now repoId
          (orig.filter (fun r => r.repoId = repoId)) s g).runners =
          orig.map (applyDiff now repoId (done ++ [g])) ++
            createdRunners now repoId (orig.filter (fun r => r.repoId = repoId))
              (done ++ [g]) := by
        rw [hrun, hs]
        exact diffShape_step now repoId remote done g orig hkeys hids hcons
          hg hdsub hdid hdname
      refine ih (done ++ [g]) _ ?_ hs' ha' hfin
      rw [List.append_assoc]
      exact hsplit

/-! ### The sweep phase rewrites the store shape -/

lemma E_nodup (orig : List Runner) (repoId : String) (hkeys : KeysNodup orig) :
    (orig.filter (fun r => r.repoId = repoId)).Nodup := by
  have h1 := List.Pairwise.filter (fun r : Runner => decide (r.repoId = repoId)) hkeys
  exact h1.imp (fun h he => h ⟨congrArg Runner.repoId he, congrArg Runner.name he⟩)

lemma phase2Apply_nil (now : Nat) (repoId : String) (remote : List GitHubRunner)
    (r : Runner) : phase2Apply now repoId remote [] r = applyDiff now repoId remote r := by
  by_cases h : r.repoId = repoId
  · simp only [phase2Apply, applyDiff, if_pos h]
    rcases hf : remote.find? (fun g => g.id == r.runnerId) with _ | g <;> simp [hf]
  · simp [phase2Apply, applyDiff, h]

lemma sweepRunner_write (w : Option String) (net : Nat → Bool) (now : Nat)
    (ids : List Nat) (s : St) (er : Runner) (ha : s.aborted = false)
    (hm : er.runnerId ∉ ids) (hst : er.status ≠ UNKNOWN) :
    (sweepRunner w net now ids s er).runners =
      putRunner s.runners { er with status := UNKNOWN } := by
  simp only [sweepRunner, ha, Bool.false_eq_true, if_false, if_neg hm, if_pos hst]
  split
  · rw [(handleUnhealthyRunner_frame _ _ _ _ _ _).1]
  · rfl

lemma remoteIds_not_mem_iff (remote : List GitHubRunner) (rid : Nat) :
    rid ∉ remoteIdsOf remote ↔ remote.find? (fun g => g.id == rid) = none := by
  rw [findRemote_none_iff]
  constructor
  · intro h g hg he
    exact h (List.mem_map.mpr ⟨g, hg, he⟩)
  · intro h hmem
    obtain ⟨g, hg, he⟩ := List.mem_map.mp hmem
    exact h g hg he

lemma sweepShape_step (w : Option String) (net : Nat → Bool) (now : Nat)
    (repoId : String) (remote : List GitHubRunner) (orig : List Runner)
    (hkeys : KeysNodup orig) (hcons : Consistent orig repoId remote)
    (E1 : List Runner) (er : Runner)
    (herE : er ∈ orig.filter (fun r => r.repoId = repoId))
    (hE1 : ∀ x ∈ E1, x ∈ orig.filter (fun r => r.repoId = repoId))
    (hE1name : ∀ x ∈ E1, x.name ≠ er.name)
    (s : St)
    (hs : s.runners = orig.map (phase2Apply now repoId remote E1) ++
      createdRunners now repoId (orig.filter (fun r => r.repoId = repoId)) remote)
    (ha : s.aborted = false) :
    (sweepRunner w net now (remoteIdsOf remote) s er).runners =
      orig.map (phase2Apply now repoId remote (E1 ++ [er])) ++
        createdRunners now repoId (orig.filter (fun r => r.repoId = repoId)) remote := by
  have her_orig : er ∈ orig := (List.mem_filter.mp herE).1
  have her_repo : er.repoId = repoId := by
    have := (List.mem_filter.mp herE).2
    simpa using this
  have hconsE : ∀ r ∈ orig.filter (fun x => x.repoId = repoId), ∀ g' ∈ remote,
      (r.name = g'.name ↔ r.runnerId = g'.id) := by
    intro r hr
    rcases List.mem_filter.mp hr with ⟨h1, h2⟩
    simp only [decide_eq_true_eq] at h2
    exact hcons r h1 h2
  have hnameinj := E_name_inj orig repoId hkeys
  by_cases hm : er.runnerId ∈ remoteIdsOf remote
  · -- already reported: sweep skips, and the shape is unchanged
    rw [sweepRunner_noop _ _ _ _ _ _ (Or.inl hm), hs]
    congr 1
    refine List.map_congr_left ?_
    intro r hr
    by_cases hrepo : r.repoId = repoId
    · simp only [phase2Apply, if_pos hrepo]
      rcases hf : remote.find? (fun g => g.id == r.runnerId) with _ | g
      · simp only [hf]
        have hrE : r ∈ orig.filter (fun x => x.repoId = repoId) :=
          List.mem_filter.mpr ⟨hr, by simpa using hrepo⟩
        have hname_ne : er.name ≠ r.name := by
          intro he
          obtain rfl := hnameinj er herE r hrE he
          exact (remoteIds_not_mem_iff remote er.runnerId).mpr hf hm
        have hiff : (∃ e ∈ E1 ++ [er], e.name = r.name) ↔
            (∃ e ∈ E1, e.name = r.name) := by
          constructor
          · rintro ⟨e, he, hen⟩
            rcases List.mem_append.mp he with he | he
            · exact ⟨e, he, hen⟩
            · obtain rfl := List.mem_singleton.mp he
              exact absurd hen hname_ne
          · rintro ⟨e, he, hen⟩
            exact ⟨e, List.mem_append.mpr (Or.inl he), hen⟩
        by_cases hc : (∃ e ∈ E1, e.name = r.name) ∧ r.status ≠ UNKNOWN
        · rw [if_pos hc, if_pos ⟨hiff.mpr hc.1, hc.2⟩]
        · rw [if_neg hc, if_neg (fun hc2 => hc ⟨hiff.mp hc2.1, hc2.2⟩)]
      · simp only [hf]
    · simp [phase2Apply, hrepo]
  · have her_unmatched : remote.find? (fun g => g.id == er.runnerId) = none :=
      (remoteIds_not_mem_iff remote er.runnerId).mp hm
    by_cases hst : er.status = UNKNOWN
    · -- already UNKNOWN: sweep skips; only the sweep marker changes vacuously
      rw [sweepRunner_noop _ _ _ _ _ _ (Or.inr hst), hs]
      congr 1
      refine List.map_congr_left ?_
      intro r hr
      by_cases hrepo : r.repoId = repoId
      · simp only [phase2Apply, if_pos hrepo]
        rcases hf : remote.find? (fun g => g.id == r.runnerId) with _ | g
        · simp only [hf]
          have hrE : r ∈ orig.filter (fun x => x.repoId = repoId) :=
            List.mem_filter.mpr ⟨hr, by simpa using hrepo⟩
          by_cases hname : r.name = er.name
          · obtain rfl := hnameinj r hrE er herE hname
            rw [if_neg, if_neg]
            · rintro ⟨_, h2⟩
              exact h2 hst
            · rintro ⟨_, h2⟩
              exact h2 hst
          · have hiff : (∃ e ∈ E1 ++ [er], e.name = r.name) ↔ (∃ e ∈ E1, e.name = r.name) := by
              constructor
              · rintro ⟨e, he, hen⟩
                rcases List.mem_append.mp he with he | he
                · exact ⟨e, he, hen⟩
                · obtain rfl := List.mem_singleton.mp he
                  exact absurd hen.symm hname
              · rintro ⟨e, he, hen⟩
                exact ⟨e, List.mem_append.mpr (Or.inl he), hen⟩
            by_cases hc : (∃ e ∈ E1, e.name = r.name) ∧ r.status ≠ UNKNOWN
            · rw [if_pos hc, if_pos ⟨hiff.mpr hc.1, hc.2⟩]
            · rw [if_neg hc, if_neg (fun hc2 => hc ⟨hiff.mp hc2.1, hc2.2⟩)]
        · simp only [hf]
      · simp [phase2Apply, hrepo]
    · -- a real sweep write: replace er's record with status UNKNOWN
      have happ_er : phase2Apply now repoId remote E1 er = er := by
        simp only [phase2Apply, if_pos her_repo, her_unmatched]
        rw [if_neg]
        rintro ⟨⟨e, he, hename⟩, _⟩
        exact hE1name e he hename
      have hmem : ∃ x ∈ orig.map (phase2Apply now repoId remote E1) ++
          createdRunners now repoId (orig.filter (fun r => r.repoId = repoId)) remote,
          x.repoId = ({ er with status := UNKNOWN } : Runner).repoId ∧
            x.name = ({ er with status := UNKNOWN } : Runner).name :=
        ⟨er, List.mem_append.mpr (Or.inl (List.mem_map.mpr ⟨er, her_orig, happ_er⟩)),
          rfl, rfl⟩
      rw [sweepRunner_write w net now _ s er ha hm hst, hs,
        putRunner_of_mem _ _ hmem, List.map_append, List.map_map]
      congr 1
      · refine List.map_congr_left ?_
        intro r hr
        by_cases hrepo : r.repoId = repoId
        · have hrE : r ∈ orig.filter (fun x => x.repoId = repoId) :=
            List.mem_filter.mpr ⟨hr, by simpa using hrepo⟩
          rcases hf : remote.find? (fun g => g.id == r.runnerId) with _ | g₂
          · -- r unreported
            by_cases hname : r.name = er.name
            · obtain rfl := hnameinj r hrE er herE hname
              have happ2 : phase2Apply now repoId remote (E1 ++ [r]) r =
                  { r with status := UNKNOWN } := by
                simp only [phase2Apply, if_pos hrepo, hf]
                rw [if_pos ⟨⟨r, List.mem_append.mpr (Or.inr (List.mem_singleton.mpr rfl)),
                  rfl⟩, hst⟩]
              simp only [Function.comp_apply, happ_er, happ2]
              simp
            · have hiff : (∃ e ∈ E1 ++ [er], e.name = r.name) ↔
                  (∃ e ∈ E1, e.name = r.name) := by
                constructor
                · rintro ⟨e, he, hen⟩
                  rcases List.mem_append.mp he with he | he
                  · exact ⟨e, he, hen⟩
                  · obtain rfl := List.mem_singleton.mp he
                    exact absurd hen.symm hname
                · rintro ⟨e, he, hen⟩
                  exact ⟨e, List.mem_append.mpr (Or.inl he), hen⟩
              by_cases hc : (∃ e ∈ E1, e.name = r.name) ∧ r.status ≠ UNKNOWN
              · have hfr : phase2Apply now repoId remote E1 r =
                    { r with status := UNKNOWN } := by
                  simp only [phase2Apply, if_pos hrepo, hf]
                  rw [if_pos hc]
                have hfr2 : phase2Apply now repoId remote (E1 ++ [er]) r =
                    { r with status := UNKNOWN } := by
                  simp only [phase2Apply, if_pos hrepo, hf]
                  rw [if_pos ⟨hiff.mpr hc.1, hc.2⟩]
                simp only [Function.comp_apply, hfr, hfr2]
                rw [if_neg]
                rintro ⟨_, h2⟩
                exact hname h2
              · have hfr : phase2Apply now repoId remote E1 r = r := by
                  simp only [phase2Apply, if_pos hrepo, hf]
                  rw [if_neg hc]
                have hfr2 : phase2Apply now repoId remote (E1 ++ [er]) r = r := by
                  simp only [phase2Apply, if_pos hrepo, hf]
                  rw [if_neg (fun hc2 => hc ⟨hiff.mp hc2.1, hc2.2⟩)]
                simp only [Function.comp_apply, hfr, hfr2]
                rw [if_neg]
                rintro ⟨_, h2⟩
                exact hname h2
          · -- r reported: er's key cannot collide
            have hg₂rem : g₂ ∈ remote := (findRemote_some_facts _ _ _ hf).1
            have hg₂id : g₂.id = r.runnerId := (findRemote_some_facts _ _ _ hf).2
            have hname_ne : er.name ≠ g₂.name := by
              intro he
              have : er.runnerId = g₂.id := (hconsE er herE g₂ hg₂rem).mp he
              rw [findRemote_none_iff] at her_unmatched
              exact her_unmatched g₂ hg₂rem this.symm
            simp only [Function.comp_apply, phase2Apply, if_pos hrepo, hf]
            rw [if_neg]
            rintro ⟨_, h2⟩
            exact hname_ne h2.symm
        · simp only [Function.comp_apply, phase2Apply, if_neg hrepo]
          rw [if_neg]
          rintro ⟨h1, _⟩
          exact hrepo (h1.trans her_repo)
      · refine Eq.trans (List.map_congr_left ?_) (List.map_id _)
        intro c hc
        obtain ⟨g', hg'mem, rfl⟩ := List.mem_map.mp hc
        have hg'rem : g' ∈ remote := (List.mem_filter.mp hg'mem).1
        show (if _ then _ else newRunner now repoId g') = _
        rw [if_neg, id]
        rintro ⟨_, h2⟩
        have : er.runnerId = g'.id := (hconsE er herE g' hg'rem).mp h2.symm
        rw [findRemote_none_iff] at her_unmatched
        exact her_unmatched g' hg'rem this.symm

lemma sweepShape_fold (w : Option String) (net : Nat → Bool) (now : Nat)
    (repoId : String) (remote : List GitHubRunner) (orig : List Runner)
    (hkeys : KeysNodup orig) (hcons : Consistent orig repoId remote) :
    ∀ (E2 E1 : List Runner) (s : St),
      E1 ++ E2 = orig.filter (fun r => r.repoId = repoId) →
      s.runners = orig.map (phase2Apply now repoId remote E1) ++
        createdRunners now repoId (orig.filter (fun r => r.repoId = repoId)) remote →
      s.aborted = false →
      (E2.foldl (sweepRunner w net now (remoteIdsOf remote)) s).runners =
        orig.map (phase2Apply now repoId remote
          (orig.filter (fun r => r.repoId = repoId))) ++
          createdRunners now repoId (orig.filter (fun r => r.repoId = repoId)) remote := by
  intro E2
  induction E2 with
  | nil =>
      intro E1 s hsplit hs _
      rw [List.append_nil] at hsplit
      subst hsplit
      simpa using hs
  | cons er E2 ih =>
      intro E1 s hsplit hs ha
      have herE : er ∈ orig.filter (fun r => r.repoId = repoId) := by
        rw [← hsplit]
        exact List.mem_append.mpr (Or.inr (List.mem_cons_self _ _))
      have hE1 : ∀ x ∈ E1, x ∈ orig.filter (fun r => r.repoId = repoId) := by
        intro x hx
        rw [← hsplit]
        exact List.mem_append.mpr (Or.inl hx)
      have hE1name : ∀ x ∈ E1, x.name ≠ er.name := by
        intro x hx he
        obtain rfl := E_name_inj orig repoId hkeys x (hE1 x hx) er herE he
        have hnd := E_nodup orig repoId hkeys
        rw [← hsplit, List.nodup_append] at hnd
        exact hnd.2.2 hx (List.mem_cons_self _ _)
      rw [List.foldl_cons]
      refine ih (E1 ++ [er]) _ ?_ ?_ ?_
      · rw [List.append_assoc]
        exact hsplit
      · exact sweepShape_step w net now repoId remote orig hkeys hcons E1 er herE hE1
          hE1name s hs ha
      · rw [sweepRunner_aborted]
        exact ha

lemma phase2Apply_full (now : Nat) (repoId : String) (remote : List GitHubRunner)
    (orig : List Runner) (r : Runner) (hr : r ∈ orig) :
    phase2Apply now repoId remote (orig.filter (fun x => x.repoId = repoId)) r =
      reconApply now repoId remote r := by
  by_cases hrepo : r.repoId = repoId
  · simp only [phase2Apply, reconApply, if_pos hrepo]
    rcases hf : remote.find? (fun g => g.id == r.runnerId) with _ | g
    · simp only [hf]
      have hrE : r ∈ orig.filter (fun x => x.repoId = repoId) :=
        List.mem_filter.mpr ⟨hr, by simpa using hrepo⟩
      by_cases hst : r.status = UNKNOWN
      · rw [if_neg, if_neg]
        · exact fun h => h hst
        · rintro ⟨_, h2⟩
          exact h2 hst
      · rw [if_pos ⟨⟨r, hrE, rfl⟩, hst⟩, if_pos hst]
    · simp only [hf]
  · simp [phase2Apply, reconApply, hrepo]

/-- Shape of the runner store after one complete per-repository pass, under
the well-formedness hypotheses: every stored record of the repository is
rewritten by `reconApply`, and one fresh record is appended per unmatched
remote descriptor. -/
lemma processRepository_shape (w : Option String) (net : Nat → Bool) (now : Nat)
    (repo : String) (remote : List GitHubRunner) (s : St)
    (hkeys : KeysNodup s.runners) (hids : RepoIdsNodup s.runners (repoIdOf repo))
    (hR : RemoteWF remote) (hcons : Consistent s.runners (repoIdOf repo) remote)
    (ha : s.aborted = false)
    (hfin : (processRepository w net now repo remote s).aborted = false) :
    (processRepository w net now repo remote s).runners =
      s.runners.map (reconApply now (repoIdOf repo) remote) ++
        createdRunners now (repoIdOf repo)
          (s.runners.filter (fun r => r.repoId = repoIdOf repo)) remote := by
  obtain ⟨hr0, ho0, hl0, hab0⟩ := ensureRepository_frame now s (ownerOf repo) (repoIdOf repo)
  have hE : fetchExistingRunners (ensureRepository now s (ownerOf repo) (repoIdOf repo))
      (repoIdOf repo) = s.runners.filter (fun r => r.repoId = repoIdOf repo) := by
    simp only [fetchExistingRunners]
    rw [hr0]
  simp only [processRepository, hE] at hfin ⊢
  have ha0 : (ensureRepository now s (ownerOf repo) (repoIdOf repo)).aborted = false := by
    rw [hab0]
    exact ha
  have habD : (remote.foldl (processRemoteRunner w net now (repoIdOf repo)
      (s.runners.filter (fun r => r.repoId = repoIdOf repo)))
      (ensureRepository now s (ownerOf repo) (repoIdOf repo))).aborted = false := by
    rw [foldl_sweep_aborted] at hfin
    exact hfin
  have hs0 : (ensureRepository now s (ownerOf repo) (repoIdOf repo)).runners =
      s.runners.map (applyDiff now (repoIdOf repo) []) ++
        createdRunners now (repoIdOf repo)
          (s.runners.filter (fun r => r.repoId = repoIdOf repo)) [] := by
    rw [hr0]
    have hmap : s.runners.map (applyDiff now (repoIdOf repo) []) = s.runners :=
      Eq.trans (List.map_congr_left fun r _ => applyDiff_nil now (repoIdOf repo) r)
        (List.map_id _)
    rw [hmap]
    simp [createdRunners]
  have hD := diffShape_fold w net now (repoIdOf repo) remote s.runners hkeys hids hR hcons
    remote [] (ensureRepository now s (ownerOf repo) (repoIdOf repo)) rfl hs0 ha0 habD
  have hsD : (remote.foldl (processRemoteRunner w net now (repoIdOf repo)
      (s.runners.filter (fun r => r.repoId = repoIdOf repo)))
      (ensureRepository now s (ownerOf repo) (repoIdOf repo))).runners =
      s.runners.map (phase2Apply now (repoIdOf repo) remote []) ++
        createdRunners now (repoIdOf repo)
          (s.runners.filter (fun r => r.repoId = repoIdOf repo)) remote := by
    have hmap2 : s.runners.map (applyDiff now (repoIdOf repo) remote) =
        s.runners.map (phase2Apply now (repoIdOf repo) remote []) :=
      List.map_congr_left fun r _ => (phase2Apply_nil now (repoIdOf repo) remote r).symm
    rw [hD, hmap2]
  have hfinal := sweepShape_fold w net now (repoIdOf repo) remote s.runners hkeys hcons
    (s.runners.filter (fun r => r.repoId = repoIdOf repo)) [] _ rfl hsD habD
  rw [hfinal]
  congr 1
  exact List.map_congr_left fun r hr =>
    phase2Apply_full now (repoIdOf repo) remote s.runners r hr

/-! ### Consequences of the pass shape, and idempotence of the second run -/

lemma shape_fact_exists (now : Nat) (repoId : String) (remote : List GitHubRunner)
    (orig : List Runner) (hR : RemoteWF remote) :
    ∀ g ∈ remote, ∃ x ∈ orig.map (reconApply now repoId remote) ++
      createdRunners now repoId (orig.filter (fun r => r.repoId = repoId)) remote,
      x.repoId = repoId ∧ x.runnerId = g.id := by
  intro g hg
  by_cases hmatch : ∃ r ∈ orig.filter (fun x => x.repoId = repoId), r.runnerId = g.id
  · obtain ⟨r, hrE, hrid⟩ := hmatch
    have hr_orig : r ∈ orig := (List.mem_filter.mp hrE).1
    have hrepo : r.repoId = repoId := by simpa using (List.mem_filter.mp hrE).2
    obtain ⟨g', hf⟩ : ∃ g', remote.find? (fun x => x.id == r.runnerId) = some g' := by
      have hsome : (remote.find? (fun x => x.id == r.runnerId)).isSome = true :=
        List.find?_isSome.mpr ⟨g, hg, by simpa using hrid.symm⟩
      exact Option.isSome_iff_exists.mp hsome
    obtain ⟨hg'rem, hg'id⟩ := findRemote_some_facts remote r.runnerId g' hf
    obtain rfl : g' = g :=
      List.inj_on_of_nodup_map hR.1 hg'rem hg (by rw [hg'id, hrid])
    refine ⟨reconApply now repoId remote r,
      List.mem_append.mpr (Or.inl (List.mem_map.mpr ⟨r, hr_orig, rfl⟩)), ?_, ?_⟩
    · simp only [reconApply, if_pos hrepo, hf]
      exact hrepo
    · simp only [reconApply, if_pos hrepo, hf]
      exact hrid
  · have hfE : (orig.filter (fun x => x.repoId = repoId)).find?
        (fun r => r.runnerId == g.id) = none := by
      rw [List.find?_eq_none]
      intro x hx he
      exact hmatch ⟨x, hx, by simpa using he⟩
    refine ⟨newRunner now repoId g, List.mem_append.mpr (Or.inr ?_), rfl, rfl⟩
    exact List.mem_map.mpr ⟨g, List.mem_filter.mpr ⟨hg, by simp [hfE]⟩, rfl⟩

lemma shape_fact_status (now : Nat) (repoId : String) (remote : List GitHubRunner)
    (orig : List Runner) (hR : RemoteWF remote) :
    ∀ x ∈ orig.map (reconApply now repoId remote) ++
      createdRunners now repoId (orig.filter (fun r => r.repoId = repoId)) remote,
      x.repoId = repoId → ∀ g ∈ remote, x.runnerId = g.id →
        x.status = mapGitHubStatus g ∧ x.name = g.name := by
  intro x hx hxrepo g hg hxid
  rcases List.mem_append.mp hx with hx | hx
  · obtain ⟨r, hr, rfl⟩ := List.mem_map.mp hx
    by_cases hrepo : r.repoId = repoId
    · rcases hf : remote.find? (fun g' => g'.id == r.runnerId) with _ | g₂
      · exfalso
        have hxid' : (reconApply now repoId remote r).runnerId = r.runnerId := by
          simp only [reconApply, if_pos hrepo, hf]
          split <;> rfl
        rw [findRemote_none_iff] at hf
        exact hf g hg (by rw [← hxid, hxid'])
      · obtain ⟨hg₂rem, hg₂id⟩ := findRemote_some_facts remote r.runnerId g₂ hf
        have hxval : reconApply now repoId remote r = updatedRunner now r g₂ := by
          simp only [reconApply, if_pos hrepo, hf]
        obtain rfl : g₂ = g := by
          apply List.inj_on_of_nodup_map hR.1 hg₂rem hg
          rw [hg₂id]
          rw [hxval] at hxid
          exact hxid
        rw [hxval]
        exact ⟨rfl, rfl⟩
    · exfalso
      have hxval : reconApply now repoId remote r = r := by simp [reconApply, hrepo]
      rw [hxval] at hxrepo
      exact hrepo hxrepo
  · obtain ⟨g', hg'mem, rfl⟩ := List.mem_map.mp hx
    have hg'rem : g' ∈ remote := (List.mem_filter.mp hg'mem).1
    obtain rfl : g' = g := List.inj_on_of_nodup_map hR.1 hg'rem hg hxid
    exact ⟨rfl, rfl⟩

lemma shape_fact_unmatched (now : Nat) (repoId : String) (remote : List GitHubRunner)
    (orig : List Runner) (hcons : Consistent orig repoId remote) :
    ∀ x ∈ orig.map (reconApply now repoId remote) ++
      createdRunners now repoId (orig.filter (fun r => r.repoId = repoId)) remote,
      x.repoId = repoId → x.runnerId ∉ remoteIdsOf remote →
        x.status = UNKNOWN ∧ ∀ g ∈ remote, x.name ≠ g.name := by
  intro x hx hxrepo hxid
  rcases List.mem_append.mp hx with hx | hx
  · obtain ⟨r, hr, rfl⟩ := List.mem_map.mp hx
    by_cases hrepo : r.repoId = repoId
    · rcases hf : remote.find? (fun g' => g'.id == r.runnerId) with _ | g₂
      · have hxval : reconApply now repoId remote r =
            (if r.status ≠ UNKNOWN then { r with status := UNKNOWN } else r) := by
          simp only [reconApply, if_pos hrepo, hf]
        constructor
        · rw [hxval]
          by_cases hst : r.status = UNKNOWN
          · rw [if_neg (fun h => h hst)]
            exact hst
          · rw [if_pos hst]
        · intro g hg he
          have hname : r.name = g.name := by
            rw [hxval] at he
            by_cases hst : r.status = UNKNOWN
            · rwa [if_neg (fun h => h hst)] at he
            · rwa [if_pos hst] at he
          have hid : r.runnerId = g.id := (hcons r hr hrepo g hg).mp hname
          rw [findRemote_none_iff] at hf
          exact hf g hg hid.symm
      · exfalso
        have hxval : reconApply now repoId remote r = updatedRunner now r g₂ := by
          simp only [reconApply, if_pos hrepo, hf]
        apply hxid
        rw [hxval]
        have hg₂rem : g₂ ∈ remote := (findRemote_some_facts _ _ _ hf).1
        have hg₂id : g₂.id = r.runnerId := (findRemote_some_facts _ _ _ hf).2
        exact List.mem_map.mpr ⟨g₂, hg₂rem, hg₂id⟩
    · exfalso
      have hxval : reconApply now repoId remote r = r := by simp [reconApply, hrepo]
      rw [hxval] at hxrepo
      exact hrepo hxrepo
  · exfalso
    obtain ⟨g', hg'mem, rfl⟩ := List.mem_map.mp hx
    have hg'rem : g' ∈ remote := (List.mem_filter.mp hg'mem).1
    exact hxid (List.mem_map.mpr ⟨g', hg'rem, rfl⟩)

/-- C5 (amended): provided stored runner records of the repository have
pairwise-distinct store keys and runner ids, remote descriptors have
pairwise-distinct ids and names, a stored record bears a remote descriptor's
name exactly when it bears its id (no renames, hence no stale duplicate-id
records), and the first pass completes without an uncaught dispatch error,
running the per-repository reconciliation twice with an unchanged remote
runner set produces no new OutageEvent and no notification dispatch on the
second run; a runner absent from both fetches is set to UNKNOWN only on the
first absence, and the second absence performs no status write (the record
is unchanged) and opens no OutageEvent. -/
theorem C5_second_run_idempotent (w : Option String) (net₁ net₂ : Nat → Bool)
    (now₁ now₂ : Nat) (repo : String) (remote : List GitHubRunner) (s : St)
    (hkeys : KeysNodup s.runners) (hids : RepoIdsNodup s.runners (repoIdOf repo))
    (hR : RemoteWF remote) (hcons : Consistent s.runners (repoIdOf repo) remote)
    (ha : s.aborted = false)
    (h1 : (processRepository w net₁ now₁ repo remote s).aborted = false) :
    (processRepository w net₂ now₂ repo remote
        (processRepository w net₁ now₁ repo remote s)).outages =
      (processRepository w net₁ now₁ repo remote s).outages ∧
    (processRepository w net₂ now₂ repo remote
        (processRepository w net₁ now₁ repo remote s)).log =
      (processRepository w net₁ now₁ repo remote s).log ∧
    (processRepository w net₂ now₂ repo remote
        (processRepository w net₁ now₁ repo remote s)).aborted = false ∧
    (∀ r ∈ (processRepository w net₁ now₁ repo remote s).runners,
      r.repoId = repoIdOf repo → r.runnerId ∉ remoteIdsOf remote →
        r.status = UNKNOWN ∧
          r ∈ (processRepository w net₂ now₂ repo remote
            (processRepository w net₁ now₁ repo remote s)).runners) := by
  have hshape := processRepository_shape w net₁ now₁ repo remote s hkeys hids hR hcons ha h1
  set s₁ := processRepository w net₁ now₁ repo remote s with hs₁def
  have hFex : ∀ g ∈ remote, ∃ x ∈ s₁.runners, x.repoId = repoIdOf repo ∧
      x.runnerId = g.id := by
    rw [hshape]
    exact shape_fact_exists now₁ (repoIdOf repo) remote s.runners hR
  have hFst : ∀ x ∈ s₁.runners, x.repoId = repoIdOf repo → ∀ g ∈ remote,
      x.runnerId = g.id → x.status = mapGitHubStatus g ∧ x.name = g.name := by
    rw [hshape]
    exact shape_fact_status now₁ (repoIdOf repo) remote s.runners hR
  have hFun : ∀ x ∈ s₁.runners, x.repoId = repoIdOf repo →
      x.runnerId ∉ remoteIdsOf remote →
      x.status = UNKNOWN ∧ ∀ g ∈ remote, x.name ≠ g.name := by
    rw [hshape]
    exact shape_fact_unmatched now₁ (repoIdOf repo) remote s.runners hcons
  obtain ⟨hr0, ho0, hl0, hab0⟩ :=
    ensureRepository_frame now₂ s₁ (ownerOf repo) (repoIdOf repo)
  have hE2 : fetchExistingRunners (ensureRepository now₂ s₁ (ownerOf repo) (repoIdOf repo))
      (repoIdOf repo) = s₁.runners.filter (fun r => r.repoId = repoIdOf repo) := by
    simp only [fetchExistingRunners]
    rw [hr0]
  have hF1 : ∀ g ∈ remote, ∃ er,
      (s₁.runners.filter (fun r => r.repoId = repoIdOf repo)).find?
        (fun r => r.runnerId == g.id) = some er ∧
      er.status = mapGitHubStatus g ∧ er.repoId = repoIdOf repo := by
    intro g hg
    obtain ⟨x, hx, hxrepo, hxid⟩ := hFex g hg
    have hxE : x ∈ s₁.runners.filter (fun r => r.repoId = repoIdOf repo) :=
      List.mem_filter.mpr ⟨hx, by simpa using hxrepo⟩
    obtain ⟨er, hf⟩ := findRunner_isSome _ g.id ⟨x, hxE, hxid⟩
    obtain ⟨herE, herid⟩ := findRunner_some_facts _ g.id er hf
    have her_s₁ : er ∈ s₁.runners := (List.mem_filter.mp herE).1
    have her_repo : er.repoId = repoIdOf repo := by
      simpa using (List.mem_filter.mp herE).2
    exact ⟨er, hf, (hFst er her_s₁ her_repo g hg herid).1, her_repo⟩
  have hF2 : ∀ er ∈ s₁.runners.filter (fun r => r.repoId = repoIdOf repo),
      er.runnerId ∈ remoteIdsOf remote ∨ er.status = UNKNOWN := by
    intro er herE
    by_cases hm : er.runnerId ∈ remoteIdsOf remote
    · exact Or.inl hm
    · refine Or.inr ?_
      have her_s₁ : er ∈ s₁.runners := (List.mem_filter.mp herE).1
      have her_repo : er.repoId = repoIdOf repo := by
        simpa using (List.mem_filter.mp herE).2
      exact (hFun er her_s₁ her_repo hm).1
  have ha₁ : s₁.aborted = false := h1
  have ha0 : (ensureRepository now₂ s₁ (ownerOf repo) (repoIdOf repo)).aborted = false := by
    rw [hab0]
    exact ha₁
  obtain ⟨hst1, hst2, hst3, hst4, hst5⟩ := stable_fold w net₂ now₂ (repoIdOf repo)
    (s₁.runners.filter (fun r => r.repoId = repoIdOf repo)) remote
    (ensureRepository now₂ s₁ (ownerOf repo) (repoIdOf repo)) hF1 ha0
  have hsw := sweep_noop_fold w net₂ now₂ (remoteIdsOf remote)
    (s₁.runners.filter (fun r => r.repoId = repoIdOf repo))
    (remote.foldl (processRemoteRunner w net₂ now₂ (repoIdOf repo)
      (s₁.runners.filter (fun r => r.repoId = repoIdOf repo)))
      (ensureRepository now₂ s₁ (ownerOf repo) (repoIdOf repo))) hF2
  simp only [processRepository, hE2, hsw]
  refine ⟨hst1.trans ho0, hst2.trans hl0, hst4, ?_⟩
  intro r hr hrepo hid
  obtain ⟨hstatus, hnames⟩ := hFun r hr hrepo hid
  refine ⟨hstatus, ?_⟩
  refine hst5 r ?_ ?_
  · rw [hr0]
    exact hr
  · intro g hg hk
    exact hnames g hg hk.2

/-- C5 witness (for the amended claim). -/
theorem C5_second_run_idempotent_witness :
    (processRepository (some "w") (fun _ => true) 9 "o/m" [wOnG]
        (processRepository (some "w") (fun _ => true) 7 "o/m" [wOnG] wStIdle)).outages =
      (processRepository (some "w") (fun _ => true) 7 "o/m" [wOnG] wStIdle).outages ∧
    (processRepository (some "w") (fun _ => true) 9 "o/m" [wOnG]
        (processRepository (some "w") (fun _ => true) 7 "o/m" [wOnG] wStIdle)).log =
      (processRepository (some "w") (fun _ => true) 7 "o/m" [wOnG] wStIdle).log ∧
    (processRepository (some "w") (fun _ => true) 9 "o/m" [wOnG]
        (processRepository (some "w") (fun _ => true) 7 "o/m" [wOnG] wStIdle)).aborted
      = false ∧
    (∀ r ∈ (processRepository (some "w") (fun _ => true) 7 "o/m" [wOnG] wStIdle).runners,
      r.repoId = repoIdOf "o/m" → r.runnerId ∉ remoteIdsOf [wOnG] →
        r.status = UNKNOWN ∧
          r ∈ (processRepository (some "w") (fun _ => true) 9 "o/m" [wOnG]
            (processRepository (some "w") (fun _ => true) 7 "o/m" [wOnG]
              wStIdle)).runners) :=
  C5_second_run_idempotent (some "w") (fun _ => true) (fun _ => true) 7 9 "o/m" [wOnG]
    wStIdle (by unfold KeysNodup; decide) (by unfold RepoIdsNodup; decide)
    (by unfold RemoteWF; decide) (by unfold Consistent; decide) rfl (by decide)

end ActionRunnerMonitor
